import Mathlib

/-!
# Verification of the microbioma-digital event/worker/storage pipeline

Shallow embedding, in Lean 4, of the parts of the `microbioma-digital`
repository that the frozen claims C1–C10 are about:

* the `EventBus` priority flush (`src/unnamed/part_009`, `flushBuffer`);
* the storage connection pool
  (`src/src/storage/DatabaseManagerOptimized.js`, `getConnection` /
  `releaseConnection`);
* the `PatternDetector` TF-IDF keyword extraction, greedy similarity
  clustering, problem-solving analysis and communication-style analysis
  (`src/unnamed/part_007`, `src/src/metabolism/ConversationAnalyzer.js`);
* the `StreamProcessor` worker-task lifecycle, backpressure check and
  in-worker analytic functions (`src/unnamed/part_011`);
* the `MemoryPool` object pool (`src/unnamed/part_012`).

JavaScript numbers are modelled as `ℚ` (and counters as `ℕ`/`ℤ`);
`Math.log` is kept abstract as a function parameter `log : ℚ → ℚ`
(only the argument fed to it and the way its result is combined are
claim-relevant); JS objects used as string-keyed dictionaries are
modelled as association lists with single bindings per key; JS `Set`
iteration order is insertion order and is modelled by deduplicated
lists; wall-clock reads (`Date.now()`, `toISOString()`) and PRNG draws
(`Math.random()`) are passed in as explicit parameters.  `Array.sort`
is stable in ECMAScript 2019+, so sorting with a numeric comparator is
modelled by (stable) insertion sort with the comparator's preorder.
-/

/-! ## Generic helpers: JS string/dictionary primitives -/

/-- `needle` occurs as a contiguous sublist of `hay`
(JS `String.prototype.includes` on the underlying character lists). -/
def listIncludes (hay needle : List Char) : Bool :=
  match hay with
  | [] => needle.isEmpty
  | _ :: t => needle.isPrefixOf hay || listIncludes t needle

/-- JS `hay.includes(needle)`. -/
def strIncludes (hay needle : String) : Bool :=
  listIncludes hay.toList needle.toList

/-- JS `s.toLowerCase()` (per-character lowering; the inputs at stake
are ASCII or already-lowercase letters). -/
def strToLower (s : String) : String :=
  ⟨s.data.map Char.toLower⟩

/-- Split a character list at every separator character (JS
`String.prototype.split` with a single-character-class regex; adjacent
separators yield empty fragments, exactly as in JS). -/
def splitChars (p : Char → Bool) : List Char → List (List Char)
  | [] => [[]]
  | c :: t =>
    if p c then [] :: splitChars p t
    else
      match splitChars p t with
      | [] => [[c]]
      | w :: ws => (c :: w) :: ws

/-- Association-list keys (a JS object's own property names). -/
def assocKeys {α : Type} (m : List (String × α)) : List String :=
  m.map (·.1)

/-- Lookup in a natural-number-valued JS dictionary; an absent key reads
as `0` (the `(m[k] || 0)` idiom — `0` and `undefined` are both falsy). -/
def getNat (m : List (String × Nat)) (k : String) : Nat :=
  match m with
  | [] => 0
  | (k', v) :: r => if k' = k then v else getNat r k

/-- Lookup in a rational-valued JS dictionary, absent key reads as `0`. -/
def getQ (m : List (String × ℚ)) (k : String) : ℚ :=
  match m with
  | [] => 0
  | (k', v) :: r => if k' = k then v else getQ r k

/-- `m[k] = (m[k] || 0) + 1` on a JS object: increment an existing
binding in place, or append a fresh one. -/
def bumpNat (m : List (String × Nat)) (k : String) : List (String × Nat) :=
  match m with
  | [] => [(k, 1)]
  | (k', v) :: r => if k' = k then (k', v + 1) :: r else (k', v) :: bumpNat r k

/-- `m[k] = (m[k] || 0) + v` on a rational-valued JS object. -/
def addQ (m : List (String × ℚ)) (k : String) (v : ℚ) : List (String × ℚ) :=
  match m with
  | [] => [(k, v)]
  | (k', v') :: r => if k' = k then (k', v' + v) :: r else (k', v') :: addQ r k v

/-! ## EventBus (`src/unnamed/part_009`) — claim C2

`flushBuffer` sorts the drained batch with the comparator

```js
const priorities = { critical: 3, high: 2, normal: 1, low: 0 };
return (priorities[b.priority] || 1) - (priorities[a.priority] || 1);
```

The `|| 1` default (meant for unknown priorities) also fires on the
*falsy* rank `0` of `'low'`, so `'low'` is ranked `1`, tying with
`'normal'`. -/

/-- A buffered event as far as the flush order is concerned:
name, payload tag and priority string (`eventData` in `emitBuffered`). -/
structure BufEvent where
  name : String
  payload : String
  priority : String
deriving DecidableEq

/-- The `priorities` table inside the comparator of `flushBuffer`. -/
def priorityRank (p : String) : Option Nat :=
  if p = "critical" then some 3
  else if p = "high" then some 2
  else if p = "normal" then some 1
  else if p = "low" then some 0
  else none

/-- JS `x || 1` on `priorities[p]`: `undefined` and `0` both yield `1`. -/
def jsRankOrOne (p : String) : Nat :=
  match priorityRank p with
  | none => 1
  | some n => if n = 0 then 1 else n

/-- The comparator preorder of `flushBuffer`'s sort: `a` may come
before `b` iff the comparator `rank b - rank a` is `≤ 0`. -/
def flushBefore (a b : BufEvent) : Prop :=
  jsRankOrOne b.priority ≤ jsRankOrOne a.priority

instance : DecidableRel flushBefore := fun a b =>
  inferInstanceAs (Decidable (_ ≤ _))

instance : IsTotal BufEvent flushBefore :=
  ⟨fun a b => Nat.le_total (jsRankOrOne b.priority) (jsRankOrOne a.priority)⟩

instance : IsTrans BufEvent flushBefore :=
  ⟨fun _ _ _ h1 h2 => le_trans h2 h1⟩

/-- Dispatch order of one flush batch: the stable sort performed by
`events.sort((a, b) => (priorities[b.priority] || 1) - (priorities[a.priority] || 1))`
(ECMAScript sorts are stable, so this equals stable insertion sort
under the comparator preorder). -/
def flushDispatchOrder (events : List BufEvent) : List BufEvent :=
  List.insertionSort flushBefore events

/-! ## ConnectionPool (`src/src/storage/DatabaseManagerOptimized.js`) — claim C1

`getConnection` runs synchronously up to its first suspension:

1. `connections.find(conn => !conn.inUse)` — reuse the first idle
   connection if any;
2. else, if `connections.length < maxConnections`, it `await`s
   `createOptimizedConnection()` — a genuine suspension point (the
   connection is pushed only after the `await` resumes);
3. else the caller's `resolve` is appended to `waitingQueue`.

`releaseConnection` clears `inUse`, and if the queue is non-empty,
shifts its head and hands the same connection over.

The embedding is an event-loop interleaving semantics: `acquireStart`
is the synchronous part of `getConnection`, and `createComplete` is the
resumption after `await createOptimizedConnection()` (so a state with
`pendingCreates > 0` has that many acquires suspended inside step 2).
Wall-clock fields (`created`, `lastUsed`) are omitted; they influence
nothing the claims mention. -/

/-- One pooled connection record (`{ id, db, inUse, queries }`). -/
structure Conn where
  cid : Nat
  inUse : Bool
  queries : Nat
deriving DecidableEq

/-- `this.connectionPool` plus the number of acquires currently
suspended between the `maxConnections` check and the `push`. -/
structure CPState where
  connections : List Conn
  activeConnections : Int
  waitingQueue : List Nat
  pendingCreates : Nat
  maxConnections : Nat
deriving DecidableEq

/-- Mark the first idle connection as in use (`find` + mutation). -/
def markFirstIdle : List Conn → List Conn
  | [] => []
  | c :: r =>
    if c.inUse then c :: markFirstIdle r
    else { c with inUse := true, queries := c.queries + 1 } :: r

/-- The synchronous prefix of `getConnection` for caller `caller`. -/
def acquireStart (caller : Nat) (s : CPState) : CPState :=
  if (s.connections.filter (fun c => !c.inUse)) ≠ [] then
    { s with connections := markFirstIdle s.connections,
             activeConnections := s.activeConnections + 1 }
  else if s.connections.length < s.maxConnections then
    { s with pendingCreates := s.pendingCreates + 1 }
  else
    { s with waitingQueue := s.waitingQueue ++ [caller] }

/-- Resumption of one suspended `await createOptimizedConnection()`:
push `{ id: connections.length, inUse: true, queries: 1 }`. -/
def createComplete (s : CPState) : CPState :=
  if s.pendingCreates = 0 then s
  else
    { s with
      connections := s.connections ++ [⟨s.connections.length, true, 1⟩],
      activeConnections := s.activeConnections + 1,
      pendingCreates := s.pendingCreates - 1 }

/-- Set `inUse := false` on the connection with id `cid`. -/
def clearInUse (cid : Nat) : List Conn → List Conn
  | [] => []
  | c :: r => if c.cid = cid then { c with inUse := false } :: r
              else c :: clearInUse cid r

/-- Re-mark the connection with id `cid` busy and bump `queries`
(the hand-over to a waiting caller inside `releaseConnection`). -/
def remarkInUse (cid : Nat) : List Conn → List Conn
  | [] => []
  | c :: r => if c.cid = cid then
                { c with inUse := true, queries := c.queries + 1 } :: r
              else c :: remarkInUse cid r

/-- `releaseConnection(connection)` for the connection with id `cid`. -/
def releaseConnection (cid : Nat) (s : CPState) : CPState :=
  let s1 : CPState :=
    { s with connections := clearInUse cid s.connections,
             activeConnections := s.activeConnections - 1 }
  match s1.waitingQueue with
  | [] => s1
  | _ :: rest =>
    { s1 with connections := remarkInUse cid s1.connections,
              activeConnections := s1.activeConnections + 1,
              waitingQueue := rest }

/-- Event-loop steps of the pool. -/
inductive CPStep where
  | acquire (caller : Nat)
  | create
  | release (cid : Nat)
deriving DecidableEq

/-- Apply one step. -/
def cpApply (s : CPState) : CPStep → CPState
  | .acquire caller => acquireStart caller s
  | .create => createComplete s
  | .release cid => releaseConnection cid s

/-- Run an interleaving of pool steps. -/
def cpRun (s : CPState) (steps : List CPStep) : CPState :=
  steps.foldl cpApply s

/-- Is this step the start of an acquire? -/
def isAcquire : CPStep → Bool
  | .acquire _ => true
  | _ => false

/-- Acquires are *serialized* from `s`: an `acquire` step is only taken
in a state with no creation still pending (each acquire's
`createOptimizedConnection` completes before the next acquire starts). -/
def SerializedFrom (s : CPState) : List CPStep → Prop
  | [] => True
  | step :: rest =>
    (isAcquire step = true → s.pendingCreates = 0) ∧
      SerializedFrom (cpApply s step) rest

instance : ∀ (s : CPState) (l : List CPStep), Decidable (SerializedFrom s l)
  | _, [] => .isTrue trivial
  | s, step :: rest =>
    have : Decidable (SerializedFrom (cpApply s step) rest) :=
      instDecidableSerializedFrom _ _
    instDecidableAnd

/-- The pool state `initializePool` builds for a given `maxConnections`:
`Math.min(2, maxConnections)` idle connections, empty queue. -/
def cpInitialState (maxConnections : Nat) : CPState :=
  { connections := (List.range (min 2 maxConnections)).map
      (fun i => ⟨i, false, 0⟩),
    activeConnections := 0, waitingQueue := [], pendingCreates := 0,
    maxConnections := maxConnections }

/-! ## PatternDetector TF-IDF (`src/unnamed/part_007`) — claim C3

`extractKeywordsTFIDF` lowercases all message contents, then runs
`calculateTF`, `calculateIDF`, `calculateTFIDF`, `extractTopKeywords`.
Tokenization is `doc.split(/\s+/).filter(word => word.length > 2)`. -/

/-- `doc.split(/\s+/).filter(w => w.length > 2)`: split on whitespace
runs, keep tokens longer than two characters (empty fragments produced
by the split are removed by the same length filter). -/
def tokenize (doc : String) : List String :=
  ((splitChars Char.isWhitespace doc.data).map String.mk).filter
    (fun w => w.length > 2)

/-- One document's entry of `calculateTF`: raw counts in first-insertion
order, each divided by the document's total (filtered) token count. -/
def calculateTFdoc (doc : String) : List (String × ℚ) :=
  let words := tokenize doc
  (words.foldl bumpNat []).map (fun p => (p.1, (p.2 : ℚ) / (words.length : ℚ)))

/-- `calculateTF(documents)`. -/
def calculateTF (documents : List String) : List (List (String × ℚ)) :=
  documents.map calculateTFdoc

/-- The document-frequency dictionary inside `calculateIDF`: per
document, each *distinct* token (`new Set(...)`) bumps its count. -/
def docFreqMap (documents : List String) : List (String × Nat) :=
  documents.foldl (fun m doc => ((tokenize doc).dedup).foldl bumpNat m) []

/-- `calculateIDF(documents)`: `idf[word] = log(totalDocs / wordCount[word])`. -/
def calculateIDF (log : ℚ → ℚ) (documents : List String) : List (String × ℚ) :=
  (docFreqMap documents).map
    (fun p => (p.1, log ((documents.length : ℚ) / (p.2 : ℚ))))

/-- `calculateTFIDF(tf, idf)`: per document,
`docTFIDF[word] = docTF[word] * (idf[word] || 0)` (on numbers, `x || 0`
is the identity, and an absent key reads as `0`). -/
def calculateTFIDF (tf : List (List (String × ℚ))) (idf : List (String × ℚ)) :
    List (List (String × ℚ)) :=
  tf.map (fun docTF => docTF.map (fun p => (p.1, p.2 * getQ idf p.1)))

/-- The aggregation loop of `extractTopKeywords`:
`wordScores[word] = (wordScores[word] || 0) + doc[word]`. -/
def wordScores (tfidf : List (List (String × ℚ))) : List (String × ℚ) :=
  tfidf.foldl (fun acc doc => doc.foldl (fun m p => addQ m p.1 p.2) acc) []

/-- The descending-score preorder of
`.sort((a, b) => b[1] - a[1])` on `[word, score]` entries. -/
def scoreDescBefore (a b : String × ℚ) : Prop := b.2 ≤ a.2

instance : DecidableRel scoreDescBefore := fun a b =>
  inferInstanceAs (Decidable (_ ≤ _))

instance : IsTotal (String × ℚ) scoreDescBefore :=
  ⟨fun a b => le_total b.2 a.2⟩

instance : IsTrans (String × ℚ) scoreDescBefore :=
  ⟨fun _ _ _ h1 h2 => le_trans h2 h1⟩

/-- `extractTopKeywords(tfidf, maxKeywords)`: aggregate, stable-sort by
descending score, `slice(0, maxKeywords)`. -/
def extractTopKeywords (tfidf : List (List (String × ℚ))) (maxKeywords : Nat) :
    List (String × ℚ) :=
  (List.insertionSort scoreDescBefore (wordScores tfidf)).take maxKeywords

/-- `extractKeywordsTFIDF(messages)` on the list of message contents:
lowercase, then the four-stage pipeline, with
`maxKeywords = config.maxTopicsPerConversation`. -/
def extractKeywordsTFIDF (log : ℚ → ℚ) (contents : List String)
    (maxTopicsPerConversation : Nat) : List (String × ℚ) :=
  let documents := contents.map strToLower
  extractTopKeywords
    (calculateTFIDF (calculateTF documents) (calculateIDF log documents))
    maxTopicsPerConversation

/-! Spec-side definitions for C3, written from the spec's words:
"per-message term frequency (occurrence/ total tokens, tokens
length>2); inverse-document-frequency across all messages
(`ln(totalMessages / messagesContainingTerm)`); TF-IDF = product,
summed per term across messages". -/

/-- Spec: a message's term frequency of `w` — occurrences of `w`
divided by the message's total token count (tokens of length > 2). -/
def specTermFreq (doc : String) (w : String) : ℚ :=
  (((tokenize doc).count w : ℚ)) / ((tokenize doc).length : ℚ)

/-- Spec: the number of messages containing the term. -/
def specDocFreq (documents : List String) (w : String) : Nat :=
  (documents.filter (fun d => w ∈ tokenize d)).length

/-- Spec: inverse document frequency
`ln(totalMessages / messagesContainingTerm)` (`ln` abstracted). -/
def specIDF (log : ℚ → ℚ) (documents : List String) (w : String) : ℚ :=
  log ((documents.length : ℚ) / (specDocFreq documents w : ℚ))

/-- Spec: the aggregate TF-IDF score of a term — the per-message
product `tf · idf`, summed across all messages. -/
def specScore (log : ℚ → ℚ) (documents : List String) (w : String) : ℚ :=
  (documents.map (fun d => specTermFreq d w * specIDF log documents w)).sum

/-- The distinct terms of the (lowercased) documents. -/
def specTerms (documents : List String) : List String :=
  (documents.flatMap tokenize).dedup

/-! ## PatternDetector clustering (`src/unnamed/part_007`) — claim C4

`clusterTopicsBySimilarity(keywords)`: one greedy pass; each not-yet
processed keyword opens a cluster and scans the *whole* keyword list,
absorbing any other not-yet-processed word whose character-set Jaccard
similarity with the *seed* is strictly greater than `0.6`; absorbed
words and the seed are marked processed. -/

/-- `calculateWordSimilarity(word1, word2)`: character-set Jaccard
similarity `|set1 ∩ set2| / |set1 ∪ set2|`. -/
def calculateWordSimilarity (word1 word2 : String) : ℚ :=
  let set1 := word1.toList.dedup
  let set2 := word2.toList.dedup
  let inter := set1.filter (fun c => c ∈ set2)
  let union := (set1 ++ set2).dedup
  (inter.length : ℚ) / (union.length : ℚ)

/-- One related-topic record `{ word, score, similarity }`. -/
structure RelatedTopic where
  word : String
  score : ℚ
  similarity : ℚ
deriving DecidableEq

/-- One cluster `{ id, mainTopic, relatedTopics, confidence, size }`. -/
structure TopicCluster where
  id : String
  mainTopic : String
  relatedTopics : List RelatedTopic
  confidence : ℚ
  size : Nat
deriving DecidableEq

/-- One iteration of the inner absorption scan for seed `word`: absorb
`p` if it is another, not-yet-processed word whose similarity with the
seed is strictly above the `0.6` threshold. -/
def absorbStep (word : String) (acc : List RelatedTopic × List String)
    (p : String × ℚ) : List RelatedTopic × List String :=
  if p.1 ≠ word ∧ p.1 ∉ acc.2 ∧ calculateWordSimilarity word p.1 > 6/10 then
    (acc.1 ++ [⟨p.1, p.2, calculateWordSimilarity word p.1⟩],
     acc.2 ++ [p.1])
  else acc

/-- The inner absorption scan for seed `word`: fold over the full
keyword list, extending the related-topic list and the processed set. -/
def absorbScan (word : String) (keywords : List (String × ℚ))
    (processed : List String) : List RelatedTopic × List String :=
  keywords.foldl (absorbStep word) ([], processed)

/-- One iteration of the outer greedy pass: a not-yet-processed keyword
opens a cluster, runs the absorption scan over the full list, and is
then marked processed itself. -/
def clusterStep (keywords : List (String × ℚ))
    (acc : List TopicCluster × List String) (p : String × ℚ) :
    List TopicCluster × List String :=
  if p.1 ∈ acc.2 then acc
  else
    let scan := absorbScan p.1 keywords acc.2
    (acc.1 ++
      [{ id := "cluster_" ++ toString (acc.1.length + 1),
         mainTopic := p.1,
         relatedTopics := scan.1,
         confidence := p.2,
         size := 1 + scan.1.length }],
     scan.2 ++ [p.1])

/-- The outer greedy pass (clusters accumulated in order, processed
set threaded through). -/
def clusterFold (keywords : List (String × ℚ)) :
    List TopicCluster × List String :=
  keywords.foldl (clusterStep keywords) ([], [])

/-- `clusterTopicsBySimilarity(keywords)` (the `keywords.length === 0`
early return produces the same empty list). -/
def clusterTopicsBySimilarity (keywords : List (String × ℚ)) :
    List TopicCluster :=
  (clusterFold keywords).1

/-- The words a cluster contains: its seed and its absorbed words. -/
def clusterMembers (c : TopicCluster) : List String :=
  c.mainTopic :: c.relatedTopics.map (·.word)

/-- Two words land in one cluster of `clusterTopicsBySimilarity keywords`. -/
def InSameCluster (keywords : List (String × ℚ)) (w1 w2 : String) : Prop :=
  ∃ c ∈ clusterTopicsBySimilarity keywords,
    w1 ∈ clusterMembers c ∧ w2 ∈ clusterMembers c

instance (keywords : List (String × ℚ)) (w1 w2 : String) :
    Decidable (InSameCluster keywords w1 w2) :=
  inferInstanceAs (Decidable (∃ _ ∈ _, _))

/-- Specification predicate (for the corrected C4): a cluster is
*seed-sound* for a keyword list when its size is one plus its absorbed
count, its confidence is a score its seed carries in the list, and
every absorbed topic is another keyword whose recorded similarity is
its character-set Jaccard similarity with the *seed*, strictly above
the `0.6` threshold. -/
def SeedSound (keywords : List (String × ℚ)) (c : TopicCluster) : Prop :=
  c.size = 1 + c.relatedTopics.length ∧
  (∃ sc, (c.mainTopic, sc) ∈ keywords ∧ c.confidence = sc) ∧
  ∀ rt ∈ c.relatedTopics,
    rt.similarity = calculateWordSimilarity c.mainTopic rt.word ∧
    rt.similarity > 6/10 ∧ rt.word ≠ c.mainTopic ∧
    (rt.word, rt.score) ∈ keywords

/-! ## Problem-solving analysis — claim C5

`ConversationAnalyzer.analyzeProblemSolving(messages)`
(`src/src/metabolism/ConversationAnalyzer.js`) and
`PatternDetector.identifyProblemPatterns(messages)`
(`src/unnamed/part_007`).  Both lowercase each message's content and
use *Portuguese* keyword lists; `analyzeProblemSolving` returns the
bare `{}` on an empty message list (modelled as `none`). -/

/-- The counters object of `analyzeProblemSolving`. -/
structure PSPatterns where
  problemIdentification : Nat
  solutionAttempts : Nat
  successfulResolution : Nat
  iterationCount : Nat
deriving DecidableEq

/-- One message's update inside `analyzeProblemSolving`'s `forEach`:
state is `(patterns, currentProblem, attempts)`. -/
def psStep (st : PSPatterns × Bool × Nat) (msg : String) :
    PSPatterns × Bool × Nat :=
  let content := strToLower msg
  let (p, currentProblem, attempts) := st
  let (p, currentProblem, attempts) :=
    if (strIncludes content "erro" || strIncludes content "problema" ||
        strIncludes content "não funciona") && !currentProblem then
      ({ p with problemIdentification := p.problemIdentification + 1 },
       true, 0)
    else (p, currentProblem, attempts)
  let (p, attempts) :=
    if currentProblem && strIncludes content "```" then
      ({ p with solutionAttempts := p.solutionAttempts + 1 }, attempts + 1)
    else (p, attempts)
  if currentProblem &&
      (strIncludes content "funciona" || strIncludes content "resolvido") then
    ({ p with successfulResolution := p.successfulResolution + 1,
              iterationCount := p.iterationCount + attempts },
     false, attempts)
  else (p, currentProblem, attempts)

/-- `analyzeProblemSolving(messages)` on the message contents
(`none` models the bare `{}` returned for a missing/empty list). -/
def analyzeProblemSolving (messages : List String) : Option PSPatterns :=
  if messages = [] then none
  else some (messages.foldl psStep
    (({ problemIdentification := 0, solutionAttempts := 0,
        successfulResolution := 0, iterationCount := 0 } : PSPatterns),
     false, 0)).1

/-- One recorded problem of `identifyProblemPatterns`. -/
structure ProblemRec where
  startIndex : Nat
  indicator : String
  status : String
  endIndex : Option Nat
deriving DecidableEq

/-- The `problemIndicators` list of `identifyProblemPatterns`. -/
def problemIndicators : List String :=
  ["erro", "problema", "bug", "não funciona", "falha",
   "exception", "crash", "broken", "issue", "trouble"]

/-- One indexed message's update inside `identifyProblemPatterns`:
state is `(problems, currentProblemOpen)` where the open problem, if
any, is the last pushed record. -/
def ippStep (st : List ProblemRec × Bool) (im : Nat × String) :
    List ProblemRec × Bool :=
  let (problems, openP) := st
  let content := strToLower im.2
  let (problems, openP) :=
    match problemIndicators.find? (fun ind => strIncludes content ind) with
    | some ind =>
      if openP then (problems, openP)
      else (problems ++ [({ startIndex := im.1, indicator := ind,
                            status := "open", endIndex := none } : ProblemRec)],
            true)
    | none => (problems, openP)
  if openP &&
      (strIncludes content "resolvido" || strIncludes content "funciona") then
    ((problems.dropLast) ++
       (problems.getLast?.map
         (fun pr => { pr with status := "resolved",
                              endIndex := some im.1 })).toList,
     false)
  else (problems, openP)

/-- The summary object returned by `identifyProblemPatterns`. -/
structure ProblemSummary where
  totalProblems : Nat
  openProblems : Nat
  resolvedProblems : Nat
  problems : List ProblemRec
deriving DecidableEq

/-- `identifyProblemPatterns(messages)` on the message contents. -/
def identifyProblemPatterns (messages : List String) : ProblemSummary :=
  let problems := ((messages.enum).foldl ippStep ([], false)).1
  { totalProblems := problems.length,
    openProblems := (problems.filter (fun p => p.status = "open")).length,
    resolvedProblems :=
      (problems.filter (fun p => p.status = "resolved")).length,
    problems := problems }

/-! ## Communication style (`src/unnamed/part_007`) — claim C9

`analyzeCommunicationStyle(messages)` counts keyword presence per
message and then computes

```js
const dominantStyle = Object.entries(styles).reduce(
  (a, b) => styles[a] > styles[b] ? a : b);
```

`a` and `b` are `[key, count]` *entry pairs*; as a property key an
entry coerces to the string `"key,count"`, so `styles[a]` and
`styles[b]` are both `undefined`, every comparison is `false`, and the
reduce returns its last entry. -/

/-- The four style counters. -/
structure StyleCounts where
  formal : Nat
  informal : Nat
  technical : Nat
  explanatory : Nat
deriving DecidableEq

/-- The per-message keyword-presence counting loop. -/
def countStyles (messages : List String) : StyleCounts :=
  messages.foldl
    (fun s content =>
      let s := if strIncludes content "por favor" ||
                  strIncludes content "obrigado" then
                 { s with formal := s.formal + 1 } else s
      let s := if strIncludes content "!" || strIncludes content "😊" then
                 { s with informal := s.informal + 1 } else s
      let s := if strIncludes content "```" || strIncludes content "function" ||
                  strIncludes content "class" then
                 { s with technical := s.technical + 1 } else s
      if strIncludes content "porque" || strIncludes content "exemplo" ||
          strIncludes content "assim" then
        { s with explanatory := s.explanatory + 1 } else s)
    ⟨0, 0, 0, 0⟩

/-- `Object.entries(styles)` in property-insertion order. -/
def styleEntries (s : StyleCounts) : List (String × Nat) :=
  [("formal", s.formal), ("informal", s.informal),
   ("technical", s.technical), ("explanatory", s.explanatory)]

/-- Reading `styles[key]` for an arbitrary string property key
(`undefined`, i.e. `none`, off the four style names). -/
def stylesProp (s : StyleCounts) (key : String) : Option Nat :=
  if key = "formal" then some s.formal
  else if key = "informal" then some s.informal
  else if key = "technical" then some s.technical
  else if key = "explanatory" then some s.explanatory
  else none

/-- JS string coercion of an entry pair used as a property key:
`String(["formal", 2]) = "formal,2"`. -/
def entryPropKey (e : String × Nat) : String :=
  e.1 ++ "," ++ toString e.2

/-- JS `>` on two possibly-`undefined` numbers: any comparison with
`undefined` is `false`. -/
def jsNumGT : Option Nat → Option Nat → Bool
  | some a, some b => a > b
  | _, _ => false

/-- The `reduce` computing `dominantStyle` (no initial value: starts
from the first entry; the accumulator stays an entry *pair*). -/
def dominantStyle (s : StyleCounts) : String × Nat :=
  match styleEntries s with
  | [] => ("", 0)
  | e :: rest =>
    rest.foldl
      (fun a b =>
        if jsNumGT (stylesProp s (entryPropKey a)) (stylesProp s (entryPropKey b))
        then a else b)
      e

/-! ## StreamProcessor worker-task lifecycle (`src/unnamed/part_011`) — claim C6

`executeWorkerTask`: `getAvailableWorker()` increments the chosen
worker's `jobCount`, then a promise is created whose `setTimeout`
callback only *rejects* — it does not remove the message listener, nor
call `releaseWorker`.  `releaseWorker` (guarded decrement) runs solely
inside the message handler, i.e. when the worker replies; the handler
also clears the timer and detaches itself.  A promise settles at most
once.  The embedding is the lifecycle of one submitted task, driven by
the events that can reach it. -/

/-- How the task's promise settled. -/
inductive TaskOutcome where
  | ok
  | workerError
  | timeoutError
deriving DecidableEq

/-- The observable state of one in-flight task: the chosen worker's
`jobCount`, the promise settlement, whether the message handler is
still attached, and whether the timeout timer is still pending. -/
structure TaskState where
  jobCount : Nat
  settled : Option TaskOutcome
  handlerAttached : Bool
  timerPending : Bool
deriving DecidableEq

/-- Events that can reach an in-flight task. -/
inductive TaskEvent where
  | timeoutFire
  | reply (success : Bool)
deriving DecidableEq

/-- Is the event a worker reply? -/
def isReply : TaskEvent → Bool
  | .reply _ => true
  | .timeoutFire => false

/-- Submission: `getAvailableWorker()` bumps `jobCount`, the handler is
attached and the timer armed (`pre` is the worker's prior load). -/
def submitTask (pre : Nat) : TaskState :=
  { jobCount := pre + 1, settled := none,
    handlerAttached := true, timerPending := true }

/-- Settle-at-most-once promise semantics. -/
def settleOnce (s : Option TaskOutcome) (o : TaskOutcome) : Option TaskOutcome :=
  match s with
  | none => some o
  | some r => some r

/-- One event's effect, read off `executeWorkerTask`/`releaseWorker`:
the timeout callback only rejects; the reply handler clears the timer,
detaches itself, releases the worker (guarded decrement) and settles. -/
def taskStep (s : TaskState) : TaskEvent → TaskState
  | .timeoutFire =>
    if s.timerPending then
      { s with settled := settleOnce s.settled .timeoutError,
               timerPending := false }
    else s
  | .reply success =>
    if s.handlerAttached then
      { jobCount := s.jobCount - 1,
        settled := settleOnce s.settled
          (if success then .ok else .workerError),
        handlerAttached := false,
        timerPending := false }
    else s

/-- Run one task's lifecycle from submission through `events`. -/
def runTask (pre : Nat) (events : List TaskEvent) : TaskState :=
  events.foldl taskStep (submitTask pre)

/-! ## StreamProcessor backpressure (`src/unnamed/part_011`) — claim C7

`checkBackpressure()` recomputes `activeJobs / concurrency` and, when
it exceeds the threshold, *unconditionally* bumps the metric and emits
`stream.backpressure` — there is no latch remembering the previous
saturation state. -/

/-- The slice of `StreamProcessor` state `checkBackpressure` touches;
`emitted` logs each emitted `stream.backpressure` payload
(`activeJobs` at emission time). -/
structure SPState where
  activeJobsSize : Nat
  concurrency : Nat
  backpressureThreshold : ℚ
  backpressureEventsMetric : Nat
  emitted : List Nat
deriving DecidableEq

/-- `checkBackpressure()`: returns the new state and the boolean the
method returns. -/
def checkBackpressure (s : SPState) : SPState × Bool :=
  let utilization : ℚ := (s.activeJobsSize : ℚ) / (s.concurrency : ℚ)
  if utilization > s.backpressureThreshold then
    ({ s with backpressureEventsMetric := s.backpressureEventsMetric + 1,
              emitted := s.emitted ++ [s.activeJobsSize] }, true)
  else (s, false)

/-- `n` consecutive `checkBackpressure()` calls (no job starts or
completes in between). -/
def checkBackpressureN : Nat → SPState → SPState
  | 0, s => s
  | n + 1, s => checkBackpressureN n (checkBackpressure s).1

/-! ## In-worker analytic functions (`src/unnamed/part_011`) — claim C8

The worker code implements `analyzeConversation`, `detectPatterns` and
`generateInsights`.  Each stamps `timestamp: new Date().toISOString()`
(wall clock), and `generateInsights` scores with `Math.random() * 10`;
those ambient inputs are passed explicitly (`now`, `rand`). -/

/-- First-occurrence deduplication (`[...new Set(xs)]`). -/
def dedupKeepFirst (l : List String) : List String :=
  l.foldl (fun acc x => if x ∈ acc then acc else acc ++ [x]) []

/-- A message as the worker sees it. -/
structure WMessage where
  sender : String
  content : String
deriving DecidableEq

/-- A conversation payload for `analyze_conversation`. -/
structure WConversation where
  id : String
  messages : List WMessage
deriving DecidableEq

/-- `content.match(/\b\w{4,}\b/g)`: maximal runs of word characters
(`[A-Za-z0-9_]`) of length at least 4. -/
def wordRuns (content : String) : List String :=
  ((splitChars (fun c => !(c.isAlphanum || c = '_')) content.data).map
      String.mk).filter (fun w => w.length ≥ 4)

/-- Descending-count preorder for `.sort(([,a],[,b]) => b - a)`. -/
def countDescBefore (a b : String × Nat) : Prop := b.2 ≤ a.2

instance : DecidableRel countDescBefore := fun a b =>
  inferInstanceAs (Decidable (_ ≤ _))

instance : IsTotal (String × Nat) countDescBefore :=
  ⟨fun a b => Nat.le_total b.2 a.2⟩

instance : IsTrans (String × Nat) countDescBefore :=
  ⟨fun _ _ _ h1 h2 => le_trans h2 h1⟩

/-- The result object of the worker's `analyzeConversation`. -/
structure WAnalysis where
  id : String
  messageCount : Nat
  participants : List String
  topics : List String
  sentiment : String
  complexity : Nat
  timestamp : String
deriving DecidableEq

/-- The worker's `analyzeConversation(conversation)`; `now` is the
wall-clock ISO string it stamps. -/
def analyzeConversation (conversation : WConversation) (now : String) :
    WAnalysis :=
  let participants := dedupKeepFirst (conversation.messages.map (·.sender))
  let content :=
    strToLower (String.intercalate " " (conversation.messages.map (·.content)))
  let keywords := wordRuns content
  let keywordCounts := keywords.foldl bumpNat []
  let topics :=
    ((List.insertionSort countDescBefore keywordCounts).take 5).map (·.1)
  { id := conversation.id,
    messageCount := conversation.messages.length,
    participants := participants,
    topics := topics,
    sentiment := "neutral",
    complexity := min 10 (keywords.length / 10 + participants.length),
    timestamp := now }

/-- A `detect_patterns` payload (fields the worker reads). -/
structure WPatternInput where
  conversationId : String
  messageCount : Nat
  topics : List String
deriving DecidableEq

/-- One detected pattern record. -/
structure WPattern where
  type : String
  description : String
  confidence : ℚ
deriving DecidableEq

/-- The result object of the worker's `detectPatterns`. -/
structure WPatterns where
  conversationId : String
  patterns : List WPattern
  confidence : ℚ
  timestamp : String
deriving DecidableEq

/-- The worker's `detectPatterns(data)`. -/
def detectPatterns (data : WPatternInput) (now : String) : WPatterns :=
  let patterns : List WPattern :=
    (if data.messageCount > 5 then
      [⟨"conversation_length", "Conversa extensa detectada", 8/10⟩] else []) ++
    (if "error" ∈ data.topics then
      [⟨"troubleshooting", "Sessão de debugging detectada", 7/10⟩] else [])
  { conversationId := data.conversationId,
    patterns := patterns,
    confidence :=
      if patterns.length > 0 then
        (patterns.map (·.confidence)).sum / (patterns.length : ℚ)
      else 0,
    timestamp := now }

/-- One generated insight record. -/
structure WInsight where
  type : String
  description : String
  score : ℚ
  recommendations : List String
deriving DecidableEq

/-- The result object of the worker's `generateInsights`. -/
structure WInsights where
  conversationId : String
  insights : List WInsight
  timestamp : String
deriving DecidableEq

/-- The worker's `generateInsights(data)`; `rand` is the `Math.random()`
draw in `[0, 1)`. -/
def generateInsights (conversationId : String) (now : String) (rand : ℚ) :
    WInsights :=
  { conversationId := conversationId,
    insights :=
      [⟨"productivity", "Análise de produtividade baseada na conversa",
        rand * 10, []⟩],
    timestamp := now }

/-- Erase the wall-clock field of an `analyzeConversation` result. -/
def eraseAnalysisClock (a : WAnalysis) : WAnalysis :=
  { a with timestamp := "" }

/-- Erase the wall-clock field of a `detectPatterns` result. -/
def erasePatternsClock (p : WPatterns) : WPatterns :=
  { p with timestamp := "" }

/-- Erase the wall-clock field and the PRNG-derived scores of a
`generateInsights` result. -/
def eraseInsightsAmbient (i : WInsights) : WInsights :=
  { i with timestamp := "",
           insights := i.insights.map (fun ins => { ins with score := 0 }) }

/-! ## MemoryPool (`src/unnamed/part_012`) — claim C10

`release(type, data, resetFn)` scans `pool.active` (a `Set`, insertion
order) for the first entry whose `data` is *identical* (`===`) to the
argument; absent a hit it returns `false` having touched nothing.
`getPool` lazily creates `{ available: [], active: new Set() }`, so the
pools map is modelled as a total function with that default — an
absent pool and an empty pool are observationally identical.  Payload
identity is modelled by decidable equality on an abstract payload type. -/

/-- One pooled object `{ id, type, data, created, lastUsed }`
(`type` lives in the enclosing pool key; clock fields as data). -/
structure PooledObj (α : Type) where
  oid : Nat
  data : α
  created : Nat
  lastUsed : Nat
deriving DecidableEq

/-- One per-type pool `{ available: [], active: new Set() }`. -/
structure TypedPool (α : Type) where
  available : List (PooledObj α)
  active : List (PooledObj α)
deriving DecidableEq

/-- The empty per-type pool `getPool` would lazily create. -/
def emptyTypedPool (α : Type) : TypedPool α := ⟨[], []⟩

/-- The `MemoryPool` metrics object. -/
structure MPMetrics where
  hits : Nat
  misses : Nat
  creates : Nat
  reuses : Nat
  cleanups : Nat
  totalObjects : Int
deriving DecidableEq

/-- The `MemoryPool` state: per-type pools (total map, default empty),
metrics and the `maxSize` configuration. -/
structure MemoryPool (α : Type) where
  pools : String → TypedPool α
  metrics : MPMetrics
  maxSize : Nat

/-- `release(type, data, resetFn)` at wall-clock `now`: find the first
active object with identical payload; if none, return `false` and the
unchanged state; otherwise remove it from `active`, reset its payload
(`resetFn`, or the default reset when absent), and either push it onto
`available` (below `maxSize`) or drop it and decrement `totalObjects`. -/
def MemoryPool.release {α : Type} [DecidableEq α] (s : MemoryPool α)
    (type : String) (data : α) (resetFn : α → α) (now : Nat) :
    Bool × MemoryPool α :=
  let pool := s.pools type
  match pool.active.find? (fun obj => obj.data = data) with
  | none => (false, s)
  | some obj =>
    let remaining := pool.active.filter (fun o => o ≠ obj)
    let objReset := { obj with data := resetFn obj.data }
    if pool.available.length < s.maxSize then
      (true,
       { s with pools := fun t =>
           if t = type then
             { available := pool.available ++ [{ objReset with lastUsed := now }],
               active := remaining }
           else s.pools t })
    else
      (true,
       { s with
         pools := fun t =>
           if t = type then { available := pool.available, active := remaining }
           else s.pools t,
         metrics := { s.metrics with
                      totalObjects := s.metrics.totalObjects - 1 } })

/-! # Theorems -/

/-! ## Claim C2 — EventBus flush order -/

/-- **C2, counterexample-style evaluation.**  The claim says every
`normal` event of a flush batch is dispatched before every `low` event.
In the batch `[low, normal]` the code ranks `'low'` as `1` (the
`|| 1` default swallows the table's falsy rank `0`), tying it with
`'normal'`; the stable sort therefore keeps enqueue order and the
`low` event is dispatched *before* the `normal` event. -/
theorem flushBuffer_low_ties_with_normal :
    flushDispatchOrder
        [⟨"evt.a", "p1", "low"⟩, ⟨"evt.b", "p2", "normal"⟩]
      = [⟨"evt.a", "p1", "low"⟩, ⟨"evt.b", "p2", "normal"⟩] ∧
    jsRankOrOne "low" = jsRankOrOne "normal" ∧
    priorityRank "low" = some 0 := by
  decide

/-! ## Claim C5 — the spec's problem-solving test vector -/

/-- **C5, counterexample.**  The claim: on
`["error happened", "trying fix", "trying fix2", "it works now"]`
exactly one episode is opened *and closed*, with iteration count 2.
In the code the resolution keywords are `'funciona'`/`'resolvido'` and
attempts are counted only on messages containing three backticks, so
the episode opened by `'erro' ⊂ "error"` never closes and no attempt
is counted: `successfulResolution = 0` and `iterationCount = 0 ≠ 2`. -/
theorem problemSolving_test_vector_fails :
    (analyzeProblemSolving
        ["error happened", "trying fix", "trying fix2", "it works now"]).map
        (fun p => (p.successfulResolution, p.iterationCount)) = some (0, 0) ∧
    (identifyProblemPatterns
        ["error happened", "trying fix", "trying fix2", "it works now"]
      ).resolvedProblems = 0 := by
  decide

/-- **C5, amended.**  On the spec's test vector the analysis opens
exactly one episode (via the substring `'erro'` of `"error"`) that is
never closed, with no solution attempts and iteration count `0`; the
pattern detector likewise records one problem, still open. -/
theorem problemSolving_test_vector_amended :
    analyzeProblemSolving
        ["error happened", "trying fix", "trying fix2", "it works now"]
      = some { problemIdentification := 1, solutionAttempts := 0,
               successfulResolution := 0, iterationCount := 0 } ∧
    identifyProblemPatterns
        ["error happened", "trying fix", "trying fix2", "it works now"]
      = { totalProblems := 1, openProblems := 1, resolvedProblems := 0,
          problems := [{ startIndex := 0, indicator := "erro",
                         status := "open", endIndex := none }] } := by
  decide

/-! ## Claim C9 — dominant communication style -/

/-- **C9, failing-input evaluation.**  The claim: the reported dominant
style is an arg-max of the four counters.  On the single message
`"por favor"` the counters are `formal = 1`, the rest `0`, yet
`dominantStyle` is the entry pair `("explanatory", 0)` — the `reduce`
compares `styles[entryPair]`, which is always `undefined`, so every
comparison is `false` and the last entry wins regardless of counts. -/
theorem dominantStyle_not_argmax :
    countStyles ["por favor"]
      = { formal := 1, informal := 0, technical := 0, explanatory := 0 } ∧
    dominantStyle (countStyles ["por favor"]) = ("explanatory", 0) ∧
    (dominantStyle (countStyles ["por favor"])).2
      < (countStyles ["por favor"]).formal := by
  decide

/-! ## Claim C7 — backpressure events -/

/-- **C7, counterexample.**  The claim says at most one backpressure
event is published per saturation transition.  With 5 active jobs over
concurrency 5 and threshold 0.8, two consecutive `checkBackpressure()`
calls — utilization constant above the threshold, no transition in
between — publish two events and bump the metric twice. -/
theorem backpressure_two_events_same_saturation :
    (5 : ℚ) / 5 > 4 / 5 ∧
    (checkBackpressureN 2 ⟨5, 5, 4/5, 0, []⟩).emitted = [5, 5] ∧
    (checkBackpressureN 2 ⟨5, 5, 4/5, 0, []⟩).backpressureEventsMetric = 2 := by
  have h : (5 : ℚ) / 5 > 4 / 5 := by norm_num
  refine ⟨h, ?_, ?_⟩ <;>
    norm_num [checkBackpressureN, checkBackpressure]

/-- **C7, amended.**  `checkBackpressure` publishes one
`stream.backpressure` event *per call* made while
`activeJobs / concurrency` exceeds the threshold (so `n` consecutive
saturated calls publish `n` events), and publishes nothing when
utilization is at or below the threshold — there is no
per-saturation-transition latch. -/
theorem checkBackpressure_emits_per_call (s t : SPState) (n : Nat)
    (hsat : (s.activeJobsSize : ℚ) / (s.concurrency : ℚ)
      > s.backpressureThreshold)
    (hlow : ¬ ((t.activeJobsSize : ℚ) / (t.concurrency : ℚ)
      > t.backpressureThreshold)) :
    checkBackpressure s
      = ({ s with backpressureEventsMetric := s.backpressureEventsMetric + 1,
                  emitted := s.emitted ++ [s.activeJobsSize] }, true) ∧
    (checkBackpressureN n s).emitted.length = s.emitted.length + n ∧
    checkBackpressure t = (t, false) := by
  refine ⟨by simp [checkBackpressure, hsat], ?_, by simp [checkBackpressure, hlow]⟩
  induction n generalizing s with
  | zero => simp [checkBackpressureN]
  | succ m ih =>
    have hstep : (checkBackpressure s).1
        = { s with backpressureEventsMetric := s.backpressureEventsMetric + 1,
                   emitted := s.emitted ++ [s.activeJobsSize] } := by
      simp [checkBackpressure, hsat]
    have hsat2 : ((checkBackpressure s).1.activeJobsSize : ℚ)
        / ((checkBackpressure s).1.concurrency : ℚ)
        > (checkBackpressure s).1.backpressureThreshold := by
      rw [hstep]; exact hsat
    calc (checkBackpressureN (m + 1) s).emitted.length
        = (checkBackpressureN m (checkBackpressure s).1).emitted.length := rfl
      _ = (checkBackpressure s).1.emitted.length + m := ih _ hsat2
      _ = s.emitted.length + (m + 1) := by
          rw [hstep]; simp; omega

/-- Witness for `checkBackpressure_emits_per_call` at a saturated state
(5 jobs / 5 workers, threshold 0.8, one prior event) and an idle state. -/
theorem checkBackpressure_emits_per_call_witness :
    ((5 : ℚ) / 5 > 4 / 5) ∧
    ¬ ((1 : ℚ) / 5 > 4 / 5) ∧
    (checkBackpressure ⟨5, 5, 4/5, 3, [9]⟩
      = ({ backpressureEventsMetric := 3 + 1, emitted := [9] ++ [5],
           activeJobsSize := 5, concurrency := 5,
           backpressureThreshold := 4/5 }, true) ∧
     (checkBackpressureN 2 ⟨5, 5, 4/5, 3, [9]⟩).emitted.length
       = ([9] : List Nat).length + 2 ∧
     checkBackpressure ⟨1, 5, 4/5, 0, []⟩ = (⟨1, 5, 4/5, 0, []⟩, false)) :=
  ⟨by norm_num, by norm_num,
   checkBackpressure_emits_per_call ⟨5, 5, 4/5, 3, [9]⟩ ⟨1, 5, 4/5, 0, []⟩ 2
     (by norm_num) (by norm_num)⟩

/-! ## Claim C8 — worker task purity -/

/-- **C8, counterexample.**  The claim says each worker task type is a
pure, deterministic function of its payload.  `generateInsights` scores
with `Math.random() * 10` and every task stamps
`new Date().toISOString()`, so two runs on the identical payload with
different ambient clock/PRNG values produce different results. -/
theorem worker_tasks_not_pure :
    generateInsights "c1" "2024-01-01T00:00:00Z" 0
      ≠ generateInsights "c1" "2024-01-01T00:00:00Z" (1/2) ∧
    analyzeConversation ⟨"c1", []⟩ "2024-01-01T00:00:00Z"
      ≠ analyzeConversation ⟨"c1", []⟩ "2024-01-02T00:00:00Z" ∧
    detectPatterns ⟨"c1", 0, []⟩ "2024-01-01T00:00:00Z"
      ≠ detectPatterns ⟨"c1", 0, []⟩ "2024-01-02T00:00:00Z" := by
  refine ⟨fun h => ?_, fun h => ?_, fun h => ?_⟩
  · have h2 := congrArg (fun w => w.insights.map (fun i => i.score)) h
    simp only [generateInsights, List.map_cons, List.map_nil] at h2
    have h3 : (0 : ℚ) * 10 = (1/2) * 10 := by injection h2
    norm_num at h3
  · have h2 := congrArg (fun w => w.timestamp) h
    simp only [analyzeConversation] at h2
    exact absurd h2 (by decide)
  · have h2 := congrArg (fun w => w.timestamp) h
    simp only [detectPatterns] at h2
    exact absurd h2 (by decide)

/-- **C8, amended.**  Each worker task type is a deterministic function
of its payload *and* the ambient inputs the code reads — the wall
clock, plus the PRNG draw for `generateInsights` — and depends on those
ambient inputs only through the `timestamp` field (resp. the insight
`score`): erasing these fields, two runs on identical payloads with
arbitrary different clock/PRNG values produce identical results. -/
theorem worker_tasks_deterministic_modulo_ambient
    (conv : WConversation) (d : WPatternInput) (cid : String)
    (now1 now2 : String) (r1 r2 : ℚ) :
    eraseAnalysisClock (analyzeConversation conv now1)
      = eraseAnalysisClock (analyzeConversation conv now2) ∧
    erasePatternsClock (detectPatterns d now1)
      = erasePatternsClock (detectPatterns d now2) ∧
    eraseInsightsAmbient (generateInsights cid now1 r1)
      = eraseInsightsAmbient (generateInsights cid now2 r2) := by
  refine ⟨rfl, rfl, ?_⟩
  simp [eraseInsightsAmbient, generateInsights]

/-! ## Claim C10 — releasing a foreign object is a no-op -/

/-- **C10.**  For every pool state, type tag, and value that is not the
payload of any object currently active under that type,
`MemoryPool.release` returns `false` and leaves the whole state — the
available lists, the active sets and every metrics counter — exactly as
it was (the `!objToRelease` early return fires before anything is
touched). -/
theorem memoryPool_release_foreign_noop {α : Type} [DecidableEq α]
    (s : MemoryPool α) (type : String) (data : α) (resetFn : α → α)
    (now : Nat)
    (h : ∀ obj ∈ (s.pools type).active, obj.data ≠ data) :
    MemoryPool.release s type data resetFn now = (false, s) := by
  have hfind : (s.pools type).active.find? (fun obj => obj.data = data)
      = none := by
    apply List.find?_eq_none.mpr
    intro x hx
    simp [h x hx]
  simp [MemoryPool.release, hfind]

/-- Witness for `memoryPool_release_foreign_noop`: a pool of `Nat`
payloads with one active object carrying payload `5`; releasing the
foreign payload `7` returns `false` and the untouched state. -/
theorem memoryPool_release_foreign_noop_witness :
    (∀ obj ∈ ((fun t => if t = "rec"
          then (⟨[], [⟨1, 5, 0, 0⟩]⟩ : TypedPool Nat)
          else emptyTypedPool Nat) "rec").active, obj.data ≠ 7) ∧
    MemoryPool.release
        ({ pools := fun t => if t = "rec"
             then (⟨[], [⟨1, 5, 0, 0⟩]⟩ : TypedPool Nat)
             else emptyTypedPool Nat,
           metrics := ⟨0, 0, 1, 0, 0, 1⟩, maxSize := 4 } : MemoryPool Nat)
        "rec" 7 id 3
      = (false,
         { pools := fun t => if t = "rec"
             then (⟨[], [⟨1, 5, 0, 0⟩]⟩ : TypedPool Nat)
             else emptyTypedPool Nat,
           metrics := ⟨0, 0, 1, 0, 0, 1⟩, maxSize := 4 }) :=
  ⟨by decide,
   memoryPool_release_foreign_noop _ "rec" 7 id 3 (by decide)⟩

/-! ## Claim C6 — worker timeout and load-counter release -/

/-- **C6, counterexample.**  The claim says the worker's load counter
is restored to its pre-submission value regardless of outcome,
including timeout.  When the timeout fires with no worker reply, the
handle does reject with the timeout error, but `releaseWorker` is never
called — the timeout callback only rejects — so the load counter stays
at `pre + 1` (here `1 ≠ 0`). -/
theorem workerTask_timeout_leaks_load :
    (runTask 0 [TaskEvent.timeoutFire]).settled
      = some TaskOutcome.timeoutError ∧
    (runTask 0 [TaskEvent.timeoutFire]).jobCount = 1 := by
  decide

/-- Once the handler is detached and the timer cleared, no further
event changes the task state. -/
theorem taskStep_frozen (s : TaskState) (l : List TaskEvent)
    (h1 : s.handlerAttached = false) (h2 : s.timerPending = false) :
    l.foldl taskStep s = s := by
  induction l with
  | nil => rfl
  | cons e rest ih =>
    have hstep : taskStep s e = s := by
      cases e with
      | timeoutFire => simp [taskStep, h2]
      | reply b => simp [taskStep, h1]
    rw [List.foldl_cons, hstep, ih]

/-- A settled promise stays settled with the same outcome. -/
theorem taskStep_settled_mono (l : List TaskEvent) (s : TaskState)
    (r : TaskOutcome) (h : s.settled = some r) :
    (l.foldl taskStep s).settled = some r := by
  induction l generalizing s with
  | nil => exact h
  | cons e rest ih =>
    rw [List.foldl_cons]
    apply ih
    cases e <;> simp [taskStep, settleOnce, h] <;> split <;> simp [h]

/-- Before any reply arrives, the task state is either the fresh
submission state or the fired-timeout state: the worker's load counter
stays at `pre + 1` and the handler stays attached. -/
theorem foldl_no_reply (pre : Nat) (l : List TaskEvent) (s : TaskState)
    (hs : s = submitTask pre ∨
          s = ⟨pre + 1, some .timeoutError, true, false⟩)
    (h : ∀ e ∈ l, isReply e = false) :
    l.foldl taskStep s = submitTask pre ∨
    l.foldl taskStep s = ⟨pre + 1, some .timeoutError, true, false⟩ := by
  induction l generalizing s with
  | nil => simpa using hs
  | cons e rest ih =>
    have he : isReply e = false := h e (by simp)
    have hrest : ∀ x ∈ rest, isReply x = false :=
      fun x hx => h x (by simp [hx])
    cases e with
    | reply b => simp [isReply] at he
    | timeoutFire =>
      rw [List.foldl_cons]
      apply ih _ _ hrest
      rcases hs with hs | hs <;> subst hs <;>
        exact Or.inr (by simp [taskStep, submitTask, settleOnce])

/-- After the first reply the load counter is back at `pre` forever. -/
theorem foldl_first_reply (l : List TaskEvent) (pre : Nat) (s : TaskState)
    (hs : s = submitTask pre ∨
          s = ⟨pre + 1, some .timeoutError, true, false⟩)
    (h : ∃ b, TaskEvent.reply b ∈ l) :
    (l.foldl taskStep s).jobCount = pre := by
  induction l generalizing s with
  | nil => rcases h with ⟨b, hb⟩; simp at hb
  | cons e rest ih =>
    cases e with
    | reply b =>
      have hstep : taskStep s (.reply b)
          = ⟨pre, settleOnce s.settled (if b then .ok else .workerError),
             false, false⟩ := by
        rcases hs with hs | hs <;> subst hs <;>
          simp [taskStep, submitTask, settleOnce]
      rw [List.foldl_cons, hstep, taskStep_frozen _ _ rfl rfl]
    | timeoutFire =>
      rcases h with ⟨b, hb⟩
      have hb2 : TaskEvent.reply b ∈ rest := by
        rcases List.mem_cons.mp hb with h' | h'
        · exact absurd h' (by simp)
        · exact h'
      rw [List.foldl_cons]
      apply ih _ ?_ ⟨b, hb2⟩
      rcases hs with hs | hs <;> subst hs <;>
        exact Or.inr (by simp [taskStep, submitTask, settleOnce])

/-- **C6, amended.**  A task whose timeout fires before any worker
reply settles its handle with a timeout error; but the chosen worker's
load counter is *not* restored on the timeout path — it is decremented
exactly when the worker's reply arrives (success, error, or a late
reply after the timeout), and if no reply ever arrives it stays
permanently at one above its pre-submission value. -/
theorem executeWorkerTask_timeout_and_load (pre : Nat)
    (l1 l2 events : List TaskEvent) (b : Bool)
    (h1 : ∀ e ∈ l1, isReply e = false) :
    (runTask pre (l1 ++ TaskEvent.timeoutFire :: l2)).settled
      = some TaskOutcome.timeoutError ∧
    (TaskEvent.reply b ∈ events → (runTask pre events).jobCount = pre) ∧
    ((∀ e ∈ events, isReply e = false) →
      (runTask pre events).jobCount = pre + 1) := by
  refine ⟨?_, ?_, ?_⟩
  · show (List.foldl taskStep (submitTask pre)
      (l1 ++ TaskEvent.timeoutFire :: l2)).settled = _
    rw [List.foldl_append, List.foldl_cons]
    have hB : taskStep (l1.foldl taskStep (submitTask pre)) .timeoutFire
        = ⟨pre + 1, some .timeoutError, true, false⟩ := by
      rcases foldl_no_reply pre l1 (submitTask pre) (Or.inl rfl) h1 with
        hA | hA <;> rw [hA] <;> simp [taskStep, submitTask, settleOnce]
    rw [hB]
    exact taskStep_settled_mono l2 _ _ rfl
  · intro hmem
    exact foldl_first_reply events pre (submitTask pre) (Or.inl rfl)
      ⟨b, hmem⟩
  · intro hnr
    rcases foldl_no_reply pre events (submitTask pre) (Or.inl rfl) hnr with
      h | h <;> show (List.foldl taskStep (submitTask pre) events).jobCount
        = pre + 1 <;> rw [h] <;> rfl

/-- Witness for `executeWorkerTask_timeout_and_load`: a timeout with a
late reply (`pre = 2`): the handle holds the timeout error, a trace
containing a reply ends at load `2`, and the reply-free trace ends at
load `3`. -/
theorem executeWorkerTask_timeout_and_load_witness :
    (∀ e ∈ ([] : List TaskEvent), isReply e = false) ∧
    ((runTask 2 ([] ++ TaskEvent.timeoutFire :: [TaskEvent.reply true])).settled
      = some TaskOutcome.timeoutError ∧
    (TaskEvent.reply true ∈ [TaskEvent.timeoutFire, TaskEvent.reply true] →
      (runTask 2 [TaskEvent.timeoutFire, TaskEvent.reply true]).jobCount = 2) ∧
    ((∀ e ∈ [TaskEvent.timeoutFire, TaskEvent.reply true], isReply e = false) →
      (runTask 2 [TaskEvent.timeoutFire, TaskEvent.reply true]).jobCount
        = 2 + 1)) :=
  ⟨by decide,
   executeWorkerTask_timeout_and_load 2 [] [TaskEvent.reply true]
     [TaskEvent.timeoutFire, TaskEvent.reply true] true (by decide)⟩

/-! ## Claim C1 — connection-pool bound -/

/-- **C1, counterexample.**  The claim quantifies over every
interleaving of acquire and release.  `getConnection` checks
`connections.length < maxConnections` *before* awaiting
`createOptimizedConnection()` and pushes only after the `await`
resumes, so two overlapping acquires can both pass the check.  From the
real initial state for `maxConnections = 3` (two idle connections),
four acquires followed by the two pending creation completions leave
**4** live connections — more than `maxConnections`. -/
theorem connectionPool_overflow_under_interleaving :
    (cpInitialState 3).maxConnections = 3 ∧
    (cpRun (cpInitialState 3)
        [.acquire 1, .acquire 2, .acquire 3, .acquire 4,
         .create, .create]).connections.length = 4 := by
  decide

/-- `markFirstIdle` only mutates one element in place. -/
theorem markFirstIdle_length (l : List Conn) :
    (markFirstIdle l).length = l.length := by
  induction l with
  | nil => rfl
  | cons c r ih => by_cases h : c.inUse <;> simp [markFirstIdle, h, ih]

/-- `clearInUse` only mutates one element in place. -/
theorem clearInUse_length (cid : Nat) (l : List Conn) :
    (clearInUse cid l).length = l.length := by
  induction l with
  | nil => rfl
  | cons c r ih => by_cases h : c.cid = cid <;> simp [clearInUse, h, ih]

/-- `remarkInUse` only mutates one element in place. -/
theorem remarkInUse_length (cid : Nat) (l : List Conn) :
    (remarkInUse cid l).length = l.length := by
  induction l with
  | nil => rfl
  | cons c r ih => by_cases h : c.cid = cid <;> simp [remarkInUse, h, ih]

/-- No step changes the configured maximum. -/
theorem cpApply_maxConnections (s : CPState) (step : CPStep) :
    (cpApply s step).maxConnections = s.maxConnections := by
  cases step with
  | acquire caller =>
    simp only [cpApply, acquireStart]
    split
    · rfl
    · split <;> rfl
  | create =>
    simp only [cpApply, createComplete]
    split <;> rfl
  | release cid =>
    simp only [cpApply, releaseConnection]
    split <;> rfl

/-- One serialized step preserves
`connections.length + pendingCreates ≤ maxConnections`. -/
theorem cpApply_inv (s : CPState) (step : CPStep)
    (hser : isAcquire step = true → s.pendingCreates = 0)
    (hinv : s.connections.length + s.pendingCreates ≤ s.maxConnections) :
    (cpApply s step).connections.length + (cpApply s step).pendingCreates
      ≤ (cpApply s step).maxConnections := by
  rw [cpApply_maxConnections]
  cases step with
  | acquire caller =>
    have hp : s.pendingCreates = 0 := hser rfl
    simp only [cpApply, acquireStart]
    split
    · simpa [markFirstIdle_length] using hinv
    · split
      · rename_i hlt
        simp only
        omega
      · simpa using hinv
  | create =>
    simp only [cpApply, createComplete]
    split
    · exact hinv
    · rename_i hp
      simp only [List.length_append, List.length_cons, List.length_nil]
      omega
  | release cid =>
    simp only [cpApply, releaseConnection]
    split <;>
      simpa [remarkInUse_length, clearInUse_length] using hinv

/-- Serialized runs keep the invariant and the configured maximum. -/
theorem cpRun_inv (steps : List CPStep) (s : CPState)
    (hinv : s.connections.length + s.pendingCreates ≤ s.maxConnections)
    (hser : SerializedFrom s steps) :
    (cpRun s steps).connections.length + (cpRun s steps).pendingCreates
        ≤ (cpRun s steps).maxConnections ∧
    (cpRun s steps).maxConnections = s.maxConnections := by
  induction steps generalizing s with
  | nil => exact ⟨hinv, rfl⟩
  | cons step rest ih =>
    obtain ⟨hser1, hser2⟩ := hser
    have h1 := cpApply_inv s step hser1 hinv
    have h2 := ih (cpApply s step) h1 hser2
    refine ⟨h2.1, ?_⟩
    show (cpRun (cpApply s step) rest).maxConnections = s.maxConnections
    rw [h2.2, cpApply_maxConnections]

/-- **C1, amended.**  When acquires are serialized — each acquire's
connection creation completes before the next acquire begins — the pool
never exceeds `maxConnections` live connections (under overlapping
acquires this fails, see the counterexample); and the queueing
behaviour is as claimed: an acquire arriving while every connection is
in use and the pool is at `maxConnections` creates nothing and merely
appends the caller to the back of `waitingQueue`, while a release hands
the connection to the *front* of the queue (FIFO). -/
theorem connectionPool_bounded_when_serialized (s : CPState)
    (steps : List CPStep) (caller cid w : Nat) (rest : List Nat)
    (hinv : s.connections.length + s.pendingCreates ≤ s.maxConnections)
    (hser : SerializedFrom s steps) :
    (cpRun s steps).connections.length ≤ s.maxConnections ∧
    (s.connections.all (·.inUse) = true →
      s.connections.length = s.maxConnections →
      acquireStart caller s
        = { s with waitingQueue := s.waitingQueue ++ [caller] }) ∧
    (s.waitingQueue = w :: rest →
      (releaseConnection cid s).waitingQueue = rest) := by
  refine ⟨?_, ?_, ?_⟩
  · have h := cpRun_inv steps s hinv hser
    omega
  · intro hall hlen
    have hfil : s.connections.filter (fun c => !c.inUse) = [] := by
      rw [List.filter_eq_nil]
      intro c hc
      simp [List.all_eq_true.mp hall c hc]
    simp [acquireStart, hfil, hlen]
  · intro hq
    simp [releaseConnection, hq]

/-- Witness for `connectionPool_bounded_when_serialized`: a saturated
one-connection pool with caller `7` queued; a release hands over to
`7`, and a fresh acquire by `5` would be queued behind. -/
theorem connectionPool_bounded_when_serialized_witness :
    (let s : CPState := { connections := [⟨0, true, 1⟩],
                          activeConnections := 1, waitingQueue := [7],
                          pendingCreates := 0, maxConnections := 1 }
     s.connections.length + s.pendingCreates ≤ s.maxConnections ∧
     SerializedFrom s [.release 0] ∧
     ((cpRun s [.release 0]).connections.length ≤ s.maxConnections ∧
      (s.connections.all (·.inUse) = true →
        s.connections.length = s.maxConnections →
        acquireStart 5 s
          = { s with waitingQueue := s.waitingQueue ++ [5] }) ∧
      (s.waitingQueue = 7 :: [] →
        (releaseConnection 0 s).waitingQueue = []))) :=
  ⟨by decide, by decide,
   connectionPool_bounded_when_serialized
     { connections := [⟨0, true, 1⟩], activeConnections := 1,
       waitingQueue := [7], pendingCreates := 0, maxConnections := 1 }
     [.release 0] 5 0 7 [] (by decide) (by decide)⟩

/-! ## Claim C4 — greedy similarity clustering -/

/-- `calculateWordSimilarity`, unfolded. -/
theorem calculateWordSimilarity_eq (w1 w2 : String) :
    calculateWordSimilarity w1 w2
      = ((w1.toList.dedup.filter (fun c => c ∈ w2.toList.dedup)).length : ℚ)
        / (((w1.toList.dedup ++ w2.toList.dedup).dedup).length : ℚ) := rfl

/-- The clustering threshold test, as a natural-number comparison
(cross-multiplied Jaccard ratio; for two empty words both sides are
false). -/
theorem calculateWordSimilarity_gt_iff (w1 w2 : String) :
    (calculateWordSimilarity w1 w2 > 6 / 10) ↔
    6 * (((w1.toList.dedup ++ w2.toList.dedup).dedup).length)
      < 10 * ((w1.toList.dedup.filter (fun c => c ∈ w2.toList.dedup)).length) := by
  rw [calculateWordSimilarity_eq, gt_iff_lt]
  rcases Nat.eq_zero_or_pos (((w1.toList.dedup ++ w2.toList.dedup).dedup).length)
    with h0 | hpos
  · have hnil : w1.toList.dedup ++ w2.toList.dedup = [] :=
      (List.dedup_eq_nil _).mp (List.length_eq_zero.mp h0)
    have h1 : w1.toList.dedup = [] := (List.append_eq_nil.mp hnil).1
    have h2 : w2.toList.dedup = [] := (List.append_eq_nil.mp hnil).2
    rw [h1, h2]
    norm_num
  · rw [div_lt_div_iff (by norm_num) (by exact_mod_cast hpos)]
    norm_cast
    omega

/-- **C4, counterexample.**  Both halves of the claim fail.  (i) Two
terms with character-set Jaccard similarity exactly `0.6 = 3/5` — at
least the threshold — are *not* clustered together: the code's test is
strictly `> 0.6`.  (ii) Two absorbed terms of one cluster can have
pairwise similarity `3/7 < 0.6`: absorption compares each term with
the *seed* only, so "below the threshold" pairs do end up merged. -/
theorem clusterTopics_threshold_counterexample :
    (calculateWordSimilarity "abcd" "abce" = 3 / 5 ∧
     (3 : ℚ) / 5 ≥ 6 / 10 ∧
     ¬ InSameCluster [("abcd", 1), ("abce", 1)] "abcd" "abce") ∧
    (calculateWordSimilarity "abcdefghkl" "cdefghijmn" = 3 / 7 ∧
     (3 : ℚ) / 7 < 6 / 10 ∧
     InSameCluster [("abcdefghij", 3), ("abcdefghkl", 2), ("cdefghijmn", 1)]
       "abcdefghkl" "cdefghijmn") := by
  have hA : ¬ (calculateWordSimilarity "abcd" "abce" > 6 / 10) := by
    rw [calculateWordSimilarity_gt_iff]; decide
  have hA2 : ¬ (calculateWordSimilarity "abce" "abcd" > 6 / 10) := by
    rw [calculateWordSimilarity_gt_iff]; decide
  have hB1 : calculateWordSimilarity "abcdefghij" "abcdefghkl" > 6 / 10 := by
    rw [calculateWordSimilarity_gt_iff]; decide
  have hB2 : calculateWordSimilarity "abcdefghij" "cdefghijmn" > 6 / 10 := by
    rw [calculateWordSimilarity_gt_iff]; decide
  refine ⟨⟨?_, by norm_num, ?_⟩, ⟨?_, by norm_num, ?_⟩⟩
  · rw [calculateWordSimilarity_eq]
    have l1 : ("abcd".toList.dedup.filter
        (fun c => c ∈ "abce".toList.dedup)).length = 3 := by decide
    have l2 : ((("abcd".toList.dedup ++ "abce".toList.dedup)).dedup).length
        = 5 := by decide
    rw [l1, l2]; norm_num
  · simp [InSameCluster, clusterTopicsBySimilarity, clusterFold, clusterStep,
      absorbScan, absorbStep, clusterMembers, hA, hA2]
  · rw [calculateWordSimilarity_eq]
    have l1 : ("abcdefghkl".toList.dedup.filter
        (fun c => c ∈ "cdefghijmn".toList.dedup)).length = 6 := by decide
    have l2 : ((("abcdefghkl".toList.dedup
        ++ "cdefghijmn".toList.dedup)).dedup).length = 14 := by decide
    rw [l1, l2]; norm_num
  · simp [InSameCluster, clusterTopicsBySimilarity, clusterFold, clusterStep,
      absorbScan, absorbStep, clusterMembers, hB1, hB2]

/-- Invariants of the inner absorption scan (fold form, arbitrary
accumulator): every produced related topic is either inherited or a
keyword other than the seed whose recorded similarity is the seed
similarity, strictly above the threshold; the processed set grows by
exactly the absorbed words; both components only grow. -/
theorem absorbScan_fold_props (word : String) (ks0 ks : List (String × ℚ))
    (hks : ∀ p ∈ ks, p ∈ ks0) (acc : List RelatedTopic × List String) :
    (∀ rt ∈ (ks.foldl (absorbStep word) acc).1, rt ∈ acc.1 ∨
      (rt.similarity = calculateWordSimilarity word rt.word ∧
       rt.similarity > 6/10 ∧ rt.word ≠ word ∧ (rt.word, rt.score) ∈ ks0)) ∧
    (∀ w ∈ (ks.foldl (absorbStep word) acc).2, w ∈ acc.2 ∨
      ∃ rt ∈ (ks.foldl (absorbStep word) acc).1, rt.word = w) ∧
    (∀ w ∈ acc.2, w ∈ (ks.foldl (absorbStep word) acc).2) ∧
    (∀ rt ∈ acc.1, rt ∈ (ks.foldl (absorbStep word) acc).1) := by
  induction ks generalizing acc with
  | nil =>
    exact ⟨fun rt h => Or.inl h, fun w h => Or.inl h,
           fun _ h => h, fun _ h => h⟩
  | cons p l ih =>
    have hl : ∀ q ∈ l, q ∈ ks0 := fun q hq => hks q (by simp [hq])
    have hp : p ∈ ks0 := hks p (by simp)
    rw [List.foldl_cons]
    by_cases hcond : (p.1 ≠ word ∧ p.1 ∉ acc.2 ∧
        calculateWordSimilarity word p.1 > 6/10)
    · have hstep : absorbStep word acc p
          = (acc.1 ++ [⟨p.1, p.2, calculateWordSimilarity word p.1⟩],
             acc.2 ++ [p.1]) := by
        simp [absorbStep, hcond]
      rw [hstep]
      obtain ⟨ih1, ih2, ih3, ih4⟩ := ih hl
        (acc.1 ++ [⟨p.1, p.2, calculateWordSimilarity word p.1⟩],
         acc.2 ++ [p.1])
      refine ⟨?_, ?_, ?_, ?_⟩
      · intro rt hrt
        rcases ih1 rt hrt with hin | hgood
        · rcases List.mem_append.mp hin with h | h
          · exact Or.inl h
          · have : rt = ⟨p.1, p.2, calculateWordSimilarity word p.1⟩ := by
              simpa using h
            subst this
            refine Or.inr ⟨rfl, hcond.2.2, hcond.1, ?_⟩
            simpa using hp
        · exact Or.inr hgood
      · intro w hw
        rcases ih2 w hw with hin | hex
        · rcases List.mem_append.mp hin with h | h
          · exact Or.inl h
          · have hwp : w = p.1 := by simpa using h
            subst hwp
            refine Or.inr ⟨⟨p.1, p.2, calculateWordSimilarity word p.1⟩, ?_, rfl⟩
            exact ih4 _ (by simp)
        · exact Or.inr hex
      · intro w hw
        exact ih3 w (by simp [hw])
      · intro rt hrt
        exact ih4 rt (by simp [hrt])
    · have hstep : absorbStep word acc p = acc := by
        simp only [absorbStep, if_neg hcond]
      rw [hstep]
      exact ih hl acc

/-- Invariants of the outer greedy pass (fold form): produced clusters
are seed-sound, every processed word lies in some produced cluster,
every folded keyword ends up processed, and both components grow. -/
theorem clusterFold_fold_props (ks0 l : List (String × ℚ))
    (hl : ∀ p ∈ l, p ∈ ks0) (acc : List TopicCluster × List String)
    (hacc1 : ∀ c ∈ acc.1, SeedSound ks0 c)
    (hacc2 : ∀ w ∈ acc.2, ∃ c ∈ acc.1, w ∈ clusterMembers c) :
    (∀ c ∈ (l.foldl (clusterStep ks0) acc).1, SeedSound ks0 c) ∧
    (∀ w ∈ (l.foldl (clusterStep ks0) acc).2,
      ∃ c ∈ (l.foldl (clusterStep ks0) acc).1, w ∈ clusterMembers c) ∧
    (∀ p ∈ l, p.1 ∈ (l.foldl (clusterStep ks0) acc).2) ∧
    (∀ w ∈ acc.2, w ∈ (l.foldl (clusterStep ks0) acc).2) ∧
    (∀ c ∈ acc.1, c ∈ (l.foldl (clusterStep ks0) acc).1) := by
  induction l generalizing acc with
  | nil =>
    exact ⟨hacc1, hacc2, fun p hp => absurd hp (List.not_mem_nil p),
           fun _ h => h, fun _ h => h⟩
  | cons p l ih =>
    have hl2 : ∀ q ∈ l, q ∈ ks0 := fun q hq => hl q (by simp [hq])
    have hp0 : p ∈ ks0 := hl p (by simp)
    rw [List.foldl_cons]
    by_cases hmem : p.1 ∈ acc.2
    · have hstep : clusterStep ks0 acc p = acc := by
        simp only [clusterStep, if_pos hmem]
      rw [hstep]
      obtain ⟨g1, g2, g3, g4, g5⟩ := ih hl2 acc hacc1 hacc2
      exact ⟨g1, g2, fun q hq => by
        rcases List.mem_cons.mp hq with h | h
        · subst h; exact g4 _ hmem
        · exact g3 q h, g4, g5⟩
    · obtain ⟨s1, s2, s3, s4⟩ := absorbScan_fold_props p.1 ks0 ks0
        (fun _ h => h) ([], acc.2)
      set scan := ks0.foldl (absorbStep p.1) ([], acc.2) with hscan
      have hstep : clusterStep ks0 acc p
          = (acc.1 ++
              [{ id := "cluster_" ++ toString (acc.1.length + 1),
                 mainTopic := p.1, relatedTopics := scan.1,
                 confidence := p.2, size := 1 + scan.1.length }],
             scan.2 ++ [p.1]) := by
        simp only [clusterStep, if_neg hmem, absorbScan]
      set newc : TopicCluster :=
        { id := "cluster_" ++ toString (acc.1.length + 1),
          mainTopic := p.1, relatedTopics := scan.1,
          confidence := p.2, size := 1 + scan.1.length } with hnewc
      have hnew_sound : SeedSound ks0 newc := by
        refine ⟨rfl, ⟨p.2, ?_, rfl⟩, ?_⟩
        · simpa using hp0
        · intro rt hrt
          rcases s1 rt hrt with h | h
          · exact absurd h (List.not_mem_nil rt)
          · exact h
      have hinv1 : ∀ c ∈ (acc.1 ++ [newc]), SeedSound ks0 c := by
        intro c hc
        rcases List.mem_append.mp hc with h | h
        · exact hacc1 c h
        · have : c = newc := by simpa using h
          subst this; exact hnew_sound
      have hinv2 : ∀ w ∈ (scan.2 ++ [p.1]),
          ∃ c ∈ (acc.1 ++ [newc]), w ∈ clusterMembers c := by
        intro w hw
        rcases List.mem_append.mp hw with h | h
        · rcases s2 w h with h2 | h2
          · obtain ⟨c, hc, hcw⟩ := hacc2 w h2
            exact ⟨c, List.mem_append.mpr (Or.inl hc), hcw⟩
          · obtain ⟨rt, hrt, hrtw⟩ := h2
            refine ⟨newc, List.mem_append.mpr (Or.inr (by simp)), ?_⟩
            subst hrtw
            simp only [clusterMembers, hnewc]
            exact List.mem_cons.mpr (Or.inr (List.mem_map.mpr ⟨rt, hrt, rfl⟩))
        · have : w = p.1 := by simpa using h
          subst this
          exact ⟨newc, List.mem_append.mpr (Or.inr (by simp)),
                 List.mem_cons.mpr (Or.inl rfl)⟩
      rw [hstep]
      obtain ⟨g1, g2, g3, g4, g5⟩ := ih hl2 (acc.1 ++ [newc], scan.2 ++ [p.1])
        hinv1 hinv2
      refine ⟨g1, g2, ?_, ?_, ?_⟩
      · intro q hq
        rcases List.mem_cons.mp hq with h | h
        · subst h
          exact g4 _ (List.mem_append.mpr (Or.inr (by simp)))
        · exact g3 q h
      · intro w hw
        exact g4 w (List.mem_append.mpr (Or.inl (s3 w hw)))
      · intro c hc
        exact g5 c (List.mem_append.mpr (Or.inl hc))

/-- **C4, amended.**  Clustering is *seed-relative* with a *strict*
threshold: every cluster produced by `clusterTopicsBySimilarity` is
seed-sound — its absorbed terms are other keywords whose character-set
Jaccard similarity with the cluster's **seed** is strictly greater than
`0.6`, its confidence is its seed's score, and its size is `1 +` the
absorbed count — and every keyword belongs to at least one cluster.
(Two terms at similarity exactly `0.6`, or related only through a
common seed, need not respect the original claim's pairwise reading;
see the counterexample.) -/
theorem clusterTopics_seed_relative (keywords : List (String × ℚ))
    (c : TopicCluster) (p : String × ℚ)
    (hc : c ∈ clusterTopicsBySimilarity keywords) (hp : p ∈ keywords) :
    SeedSound keywords c ∧
    ∃ c2 ∈ clusterTopicsBySimilarity keywords, p.1 ∈ clusterMembers c2 := by
  obtain ⟨g1, g2, g3, g4, g5⟩ := clusterFold_fold_props keywords keywords
    (fun _ h => h) ([], []) (by simp) (by simp)
  exact ⟨g1 c hc, g2 p.1 (g3 p hp)⟩

/-- Witness for `clusterTopics_seed_relative`: the singleton keyword
list `[("ab", 1)]` produces the one seed-sound cluster containing
`"ab"`. -/
theorem clusterTopics_seed_relative_witness :
    (⟨"cluster_1", "ab", [], 1, 1⟩ : TopicCluster)
        ∈ clusterTopicsBySimilarity [("ab", 1)] ∧
    ("ab", (1 : ℚ)) ∈ [("ab", (1 : ℚ))] ∧
    (SeedSound [("ab", 1)] ⟨"cluster_1", "ab", [], 1, 1⟩ ∧
     ∃ c2 ∈ clusterTopicsBySimilarity [("ab", 1)],
       ("ab", (1 : ℚ)).1 ∈ clusterMembers c2) :=
  ⟨by decide, by decide,
   clusterTopics_seed_relative [("ab", 1)] ⟨"cluster_1", "ab", [], 1, 1⟩
     ("ab", 1) (by decide) (by decide)⟩

/-! ## Claim C3 — TF-IDF keyword extraction

Dictionary lemmas for the association-list embedding of JS objects. -/

theorem assocKeys_cons {α : Type} (p : String × α) (m : List (String × α)) :
    assocKeys (p :: m) = p.1 :: assocKeys m := rfl

theorem getNat_bumpNat (m : List (String × Nat)) (k x : String) :
    getNat (bumpNat m k) x = getNat m x + if k = x then 1 else 0 := by
  induction m with
  | nil =>
    by_cases h : k = x <;> simp [bumpNat, getNat, h]
  | cons p r ih =>
    obtain ⟨k', v⟩ := p
    by_cases h1 : k' = k
    · subst h1
      by_cases h2 : k' = x <;> simp [bumpNat, getNat, h2]
    · by_cases h2 : k' = x
      · subst h2
        have h3 : ¬ k = k' := fun h => h1 h.symm
        simp [bumpNat, getNat, h1, h3]
      · simp [bumpNat, getNat, h1, h2, ih]

theorem keys_bumpNat (m : List (String × Nat)) (k : String) :
    assocKeys (bumpNat m k)
      = if k ∈ assocKeys m then assocKeys m else assocKeys m ++ [k] := by
  induction m with
  | nil => simp [bumpNat, assocKeys]
  | cons p r ih =>
    obtain ⟨k', v⟩ := p
    by_cases h1 : k' = k
    · subst h1
      simp [bumpNat, assocKeys]
    · have h1' : ¬ k = k' := fun h => h1 h.symm
      rw [show bumpNat ((k', v) :: r) k = (k', v) :: bumpNat r k from by
        simp [bumpNat, h1]]
      rw [assocKeys_cons, assocKeys_cons, ih]
      by_cases h2 : k ∈ assocKeys r
      · simp [h2]
      · simp [h2, h1']

theorem mem_keys_bumpNat (m : List (String × Nat)) (k x : String) :
    x ∈ assocKeys (bumpNat m k) ↔ x ∈ assocKeys m ∨ x = k := by
  rw [keys_bumpNat]
  by_cases h : k ∈ assocKeys m
  · simp only [if_pos h]
    constructor
    · exact fun hx => Or.inl hx
    · rintro (hx | rfl)
      · exact hx
      · exact h
  · simp [if_neg h]

theorem nodup_keys_bumpNat (m : List (String × Nat)) (k : String)
    (h : (assocKeys m).Nodup) : (assocKeys (bumpNat m k)).Nodup := by
  rw [keys_bumpNat]
  by_cases hk : k ∈ assocKeys m
  · simpa [hk] using h
  · simp only [if_neg hk]
    refine List.Nodup.append h (List.nodup_singleton k) ?_
    intro a ha hb
    rw [List.mem_singleton] at hb
    exact hk (hb ▸ ha)

theorem getQ_addQ (m : List (String × ℚ)) (k x : String) (v : ℚ) :
    getQ (addQ m k v) x = getQ m x + if k = x then v else 0 := by
  induction m with
  | nil =>
    by_cases h : k = x <;> simp [addQ, getQ, h]
  | cons p r ih =>
    obtain ⟨k', v'⟩ := p
    by_cases h1 : k' = k
    · subst h1
      by_cases h2 : k' = x <;> simp [addQ, getQ, h2]
    · by_cases h2 : k' = x
      · subst h2
        have h3 : ¬ k = k' := fun h => h1 h.symm
        simp [addQ, getQ, h1, h3]
      · simp [addQ, getQ, h1, h2, ih]

theorem keys_addQ (m : List (String × ℚ)) (k : String) (v : ℚ) :
    assocKeys (addQ m k v)
      = if k ∈ assocKeys m then assocKeys m else assocKeys m ++ [k] := by
  induction m with
  | nil => simp [addQ, assocKeys]
  | cons p r ih =>
    obtain ⟨k', v'⟩ := p
    by_cases h1 : k' = k
    · subst h1
      simp [addQ, assocKeys]
    · have h1' : ¬ k = k' := fun h => h1 h.symm
      rw [show addQ ((k', v') :: r) k v = (k', v') :: addQ r k v from by
        simp [addQ, h1]]
      rw [assocKeys_cons, assocKeys_cons, ih]
      by_cases h2 : k ∈ assocKeys r
      · simp [h2]
      · simp [h2, h1']

theorem mem_keys_addQ (m : List (String × ℚ)) (k x : String) (v : ℚ) :
    x ∈ assocKeys (addQ m k v) ↔ x ∈ assocKeys m ∨ x = k := by
  rw [keys_addQ]
  by_cases h : k ∈ assocKeys m
  · simp only [if_pos h]
    constructor
    · exact fun hx => Or.inl hx
    · rintro (hx | rfl)
      · exact hx
      · exact h
  · simp [if_neg h]

theorem nodup_keys_addQ (m : List (String × ℚ)) (k : String) (v : ℚ)
    (h : (assocKeys m).Nodup) : (assocKeys (addQ m k v)).Nodup := by
  rw [keys_addQ]
  by_cases hk : k ∈ assocKeys m
  · simpa [hk] using h
  · simp only [if_neg hk]
    refine List.Nodup.append h (List.nodup_singleton k) ?_
    intro a ha hb
    rw [List.mem_singleton] at hb
    exact hk (hb ▸ ha)

theorem getQ_of_mem (m : List (String × ℚ)) (k : String) (v : ℚ)
    (hnd : (assocKeys m).Nodup) (hm : (k, v) ∈ m) : getQ m k = v := by
  induction m with
  | nil => simp at hm
  | cons p r ih =>
    obtain ⟨k', v'⟩ := p
    have hnd2 : (assocKeys r).Nodup := (List.nodup_cons.mp hnd).2
    rcases List.mem_cons.mp hm with h | h
    · obtain ⟨h1, h2⟩ := Prod.ext_iff.mp h
      simp only at h1 h2
      subst h1
      subst h2
      simp [getQ]
    · have hk : k ∈ assocKeys r := List.mem_map.mpr ⟨(k, v), h, rfl⟩
      have hk' : k' ≠ k := by
        intro he
        exact (List.nodup_cons.mp hnd).1 (he ▸ hk)
      simp [getQ, hk', ih hnd2 h]

theorem mem_of_key_mem (m : List (String × ℚ)) (k : String)
    (h : k ∈ assocKeys m) : (k, getQ m k) ∈ m := by
  induction m with
  | nil => simp [assocKeys] at h
  | cons p r ih =>
    obtain ⟨k', v'⟩ := p
    by_cases h1 : k' = k
    · subst h1
      simp [getQ]
    · have h2 : k ∈ assocKeys r := by
        rcases List.mem_cons.mp h with h' | h'
        · exact absurd h'.symm h1
        · exact h'
      simp only [getQ, if_neg h1]
      exact List.mem_cons.mpr (Or.inr (ih h2))

theorem getNat_nil (x : String) : getNat [] x = 0 := rfl

theorem getQ_nil (x : String) : getQ [] x = 0 := rfl

theorem assocKeys_nil {α : Type} : assocKeys ([] : List (String × α)) = [] :=
  rfl

theorem getNat_of_mem (m : List (String × Nat)) (k : String) (v : Nat)
    (hnd : (assocKeys m).Nodup) (hm : (k, v) ∈ m) : getNat m k = v := by
  induction m with
  | nil => simp at hm
  | cons p r ih =>
    obtain ⟨k', v'⟩ := p
    have hnd2 : (assocKeys r).Nodup := (List.nodup_cons.mp hnd).2
    rcases List.mem_cons.mp hm with h | h
    · obtain ⟨h1, h2⟩ := Prod.ext_iff.mp h
      simp only at h1 h2
      subst h1
      subst h2
      simp [getNat]
    · have hk : k ∈ assocKeys r := List.mem_map.mpr ⟨(k, v), h, rfl⟩
      have hk' : k' ≠ k := by
        intro he
        exact (List.nodup_cons.mp hnd).1 (he ▸ hk)
      simp [getNat, hk', ih hnd2 h]

theorem mem_of_key_mem_nat (m : List (String × Nat)) (k : String)
    (h : k ∈ assocKeys m) : (k, getNat m k) ∈ m := by
  induction m with
  | nil => simp [assocKeys] at h
  | cons p r ih =>
    obtain ⟨k', v'⟩ := p
    by_cases h1 : k' = k
    · subst h1
      simp [getNat]
    · have h2 : k ∈ assocKeys r := by
        rcases List.mem_cons.mp h with h' | h'
        · exact absurd h'.symm h1
        · exact h'
      simp only [getNat, if_neg h1]
      exact List.mem_cons.mpr (Or.inr (ih h2))

theorem getNat_foldl_bumpNat (l : List String) (m : List (String × Nat))
    (x : String) :
    getNat (l.foldl bumpNat m) x = getNat m x + l.count x := by
  induction l generalizing m with
  | nil => simp
  | cons a l ih =>
    rw [List.foldl_cons, ih, getNat_bumpNat, List.count_cons]
    by_cases h : a = x
    · subst h; simp; omega
    · have h2 : ¬ x = a := fun hx => h hx.symm
      simp [h, h2]

theorem mem_keys_foldl_bumpNat (l : List String) (m : List (String × Nat))
    (x : String) :
    x ∈ assocKeys (l.foldl bumpNat m) ↔ x ∈ assocKeys m ∨ x ∈ l := by
  induction l generalizing m with
  | nil => simp
  | cons a l ih =>
    rw [List.foldl_cons, ih, mem_keys_bumpNat]
    constructor
    · rintro ((h | rfl) | h)
      · exact Or.inl h
      · exact Or.inr (by simp)
      · exact Or.inr (by simp [h])
    · rintro (h | h)
      · exact Or.inl (Or.inl h)
      · rcases List.mem_cons.mp h with rfl | h2
        · exact Or.inl (Or.inr rfl)
        · exact Or.inr h2

theorem nodup_keys_foldl_bumpNat (l : List String) (m : List (String × Nat))
    (h : (assocKeys m).Nodup) : (assocKeys (l.foldl bumpNat m)).Nodup := by
  induction l generalizing m with
  | nil => exact h
  | cons a l ih =>
    rw [List.foldl_cons]
    exact ih _ (nodup_keys_bumpNat m a h)

theorem mem_calculateTFdoc (doc : String) (w : String) (v : ℚ) :
    (w, v) ∈ calculateTFdoc doc ↔
      w ∈ tokenize doc ∧ v = specTermFreq doc w := by
  have hnd : (assocKeys ((tokenize doc).foldl bumpNat [])).Nodup :=
    nodup_keys_foldl_bumpNat _ _ (by simp [assocKeys_nil])
  unfold calculateTFdoc
  rw [List.mem_map]
  constructor
  · rintro ⟨p, hp, hpv⟩
    obtain ⟨h1, h2⟩ := Prod.ext_iff.mp hpv
    simp only at h1 h2
    subst h1
    have hw : p.1 ∈ assocKeys ((tokenize doc).foldl bumpNat []) :=
      List.mem_map.mpr ⟨p, hp, rfl⟩
    have hmem : p.1 ∈ tokenize doc := by
      have := (mem_keys_foldl_bumpNat (tokenize doc) [] p.1).mp hw
      simpa [assocKeys_nil] using this
    have hval : getNat ((tokenize doc).foldl bumpNat []) p.1 = p.2 :=
      getNat_of_mem _ _ _ hnd (by simpa using hp)
    have hcount : getNat ((tokenize doc).foldl bumpNat []) p.1
        = (tokenize doc).count p.1 := by
      rw [getNat_foldl_bumpNat, getNat_nil, Nat.zero_add]
    refine ⟨hmem, ?_⟩
    rw [← h2, specTermFreq, ← hval, hcount]
  · rintro ⟨hmem, hv⟩
    refine ⟨(w, getNat ((tokenize doc).foldl bumpNat []) w), ?_, ?_⟩
    · exact mem_of_key_mem_nat _ _
        ((mem_keys_foldl_bumpNat (tokenize doc) [] w).mpr (Or.inr hmem))
    · rw [getNat_foldl_bumpNat, getNat_nil, Nat.zero_add, hv, specTermFreq]

theorem keys_calculateTFdoc (doc : String) :
    assocKeys (calculateTFdoc doc)
      = assocKeys ((tokenize doc).foldl bumpNat []) := by
  unfold calculateTFdoc assocKeys
  rw [List.map_map]
  rfl

theorem mem_keys_calculateTFdoc (doc : String) (w : String) :
    w ∈ assocKeys (calculateTFdoc doc) ↔ w ∈ tokenize doc := by
  rw [keys_calculateTFdoc, mem_keys_foldl_bumpNat]
  simp [assocKeys_nil]

theorem nodup_keys_calculateTFdoc (doc : String) :
    (assocKeys (calculateTFdoc doc)).Nodup := by
  rw [keys_calculateTFdoc]
  exact nodup_keys_foldl_bumpNat _ _ (by simp [assocKeys_nil])

theorem getNat_docFreq_step (d : String) (m : List (String × Nat))
    (w : String) :
    getNat (((tokenize d).dedup).foldl bumpNat m) w
      = getNat m w + if w ∈ tokenize d then 1 else 0 := by
  rw [getNat_foldl_bumpNat, List.count_dedup]

theorem getNat_docFreqMap_aux (docs : List String)
    (m : List (String × Nat)) (w : String) :
    getNat (docs.foldl (fun m doc => ((tokenize doc).dedup).foldl bumpNat m) m) w
      = getNat m w + specDocFreq docs w := by
  induction docs generalizing m with
  | nil => simp [specDocFreq]
  | cons d docs ih =>
    rw [List.foldl_cons, ih, getNat_docFreq_step]
    have hstep : specDocFreq (d :: docs) w
        = (if w ∈ tokenize d then 1 else 0) + specDocFreq docs w := by
      unfold specDocFreq
      rw [List.filter_cons]
      by_cases h : w ∈ tokenize d
      · simp [h]
        omega
      · simp [h]
    omega

theorem getNat_docFreqMap (docs : List String) (w : String) :
    getNat (docFreqMap docs) w = specDocFreq docs w := by
  unfold docFreqMap
  rw [getNat_docFreqMap_aux, getNat_nil, Nat.zero_add]

theorem mem_keys_docFreqMap_aux (docs : List String)
    (m : List (String × Nat)) (w : String) :
    w ∈ assocKeys
        (docs.foldl (fun m doc => ((tokenize doc).dedup).foldl bumpNat m) m)
      ↔ w ∈ assocKeys m ∨ ∃ d ∈ docs, w ∈ tokenize d := by
  induction docs generalizing m with
  | nil => simp
  | cons d docs ih =>
    rw [List.foldl_cons, ih, mem_keys_foldl_bumpNat]
    simp only [List.mem_dedup, List.mem_cons]
    constructor
    · rintro ((h | h) | ⟨d', hd', hw⟩)
      · exact Or.inl h
      · exact Or.inr ⟨d, Or.inl rfl, h⟩
      · exact Or.inr ⟨d', Or.inr hd', hw⟩
    · rintro (h | ⟨d', hd' | hd', hw⟩)
      · exact Or.inl (Or.inl h)
      · subst hd'
        exact Or.inl (Or.inr hw)
      · exact Or.inr ⟨d', hd', hw⟩

theorem mem_keys_docFreqMap (docs : List String) (w : String) :
    w ∈ assocKeys (docFreqMap docs) ↔ w ∈ specTerms docs := by
  unfold docFreqMap specTerms
  rw [mem_keys_docFreqMap_aux]
  simp [assocKeys_nil, List.mem_dedup, List.mem_flatMap]

theorem nodup_keys_docFreqMap (docs : List String) :
    (assocKeys (docFreqMap docs)).Nodup := by
  unfold docFreqMap
  suffices h : ∀ m : List (String × Nat), (assocKeys m).Nodup →
      (assocKeys (docs.foldl
        (fun m doc => ((tokenize doc).dedup).foldl bumpNat m) m)).Nodup by
    exact h [] (by simp [assocKeys_nil])
  induction docs with
  | nil => exact fun m hm => hm
  | cons d docs ih =>
    intro m hm
    rw [List.foldl_cons]
    exact ih _ (nodup_keys_foldl_bumpNat _ _ hm)

theorem getQ_map_natAssoc (m : List (String × Nat)) (f : String → Nat → ℚ)
    (x : String) :
    getQ (m.map (fun p => (p.1, f p.1 p.2))) x
      = if x ∈ assocKeys m then f x (getNat m x) else 0 := by
  induction m with
  | nil => simp [assocKeys_nil, getQ_nil]
  | cons p r ih =>
    obtain ⟨k', v'⟩ := p
    rw [List.map_cons]
    by_cases h1 : k' = x
    · subst h1
      simp [getQ, getNat, assocKeys_cons]
    · have hx : ¬ x = k' := fun h => h1 h.symm
      simp only [getQ, if_neg h1, ih, assocKeys_cons, List.mem_cons, getNat]
      by_cases h2 : x ∈ assocKeys r
      · simp [h2, h1]
      · simp [h2, hx]

theorem getQ_calculateIDF (log : ℚ → ℚ) (docs : List String) (w : String)
    (hw : w ∈ specTerms docs) :
    getQ (calculateIDF log docs) w = specIDF log docs w := by
  unfold calculateIDF
  rw [getQ_map_natAssoc (docFreqMap docs)
      (fun _ n => log ((docs.length : ℚ) / (n : ℚ))) w,
    if_pos ((mem_keys_docFreqMap docs w).mpr hw), getNat_docFreqMap]
  rfl

theorem getQ_map_qAssoc (m : List (String × ℚ)) (f : String → ℚ → ℚ)
    (x : String) :
    getQ (m.map (fun p => (p.1, f p.1 p.2))) x
      = if x ∈ assocKeys m then f x (getQ m x) else 0 := by
  induction m with
  | nil => simp [assocKeys_nil, getQ_nil]
  | cons p r ih =>
    obtain ⟨k', v'⟩ := p
    rw [List.map_cons]
    by_cases h1 : k' = x
    · subst h1
      simp [getQ, assocKeys_cons]
    · have hx : ¬ x = k' := fun h => h1 h.symm
      simp only [getQ, if_neg h1, ih, assocKeys_cons, List.mem_cons]
      by_cases h2 : x ∈ assocKeys r
      · simp [h2, h1]
      · simp [h2, hx]

theorem assocKeys_mapVal {α β : Type} (m : List (String × α))
    (f : String → α → β) :
    assocKeys (m.map (fun p => (p.1, f p.1 p.2))) = assocKeys m := by
  induction m with
  | nil => rfl
  | cons p r ih =>
    rw [List.map_cons, assocKeys_cons, assocKeys_cons, ih]

theorem getQ_calculateTFdoc (doc : String) (w : String)
    (hw : w ∈ tokenize doc) :
    getQ (calculateTFdoc doc) w = specTermFreq doc w :=
  getQ_of_mem _ _ _ (nodup_keys_calculateTFdoc doc)
    ((mem_calculateTFdoc doc w (specTermFreq doc w)).mpr ⟨hw, rfl⟩)

theorem getQ_tfidfDoc (idf : List (String × ℚ)) (doc : String) (w : String) :
    getQ ((calculateTFdoc doc).map (fun p => (p.1, p.2 * getQ idf p.1))) w
      = if w ∈ tokenize doc then specTermFreq doc w * getQ idf w else 0 := by
  rw [getQ_map_qAssoc (calculateTFdoc doc) (fun k q => q * getQ idf k) w]
  by_cases h : w ∈ tokenize doc
  · rw [if_pos ((mem_keys_calculateTFdoc doc w).mpr h), if_pos h,
      getQ_calculateTFdoc doc w h]
  · rw [if_neg (fun hc => h ((mem_keys_calculateTFdoc doc w).mp hc)),
      if_neg h]

theorem getQ_foldl_addQ (dm : List (String × ℚ))
    (acc : List (String × ℚ)) (x : String)
    (hnd : (assocKeys dm).Nodup) :
    getQ (dm.foldl (fun m p => addQ m p.1 p.2) acc) x
      = getQ acc x + (if x ∈ assocKeys dm then getQ dm x else 0) := by
  induction dm generalizing acc with
  | nil => simp [assocKeys_nil]
  | cons p r ih =>
    obtain ⟨k, v⟩ := p
    have hnd2 : (assocKeys r).Nodup := (List.nodup_cons.mp hnd).2
    have hknr : k ∉ assocKeys r := (List.nodup_cons.mp hnd).1
    rw [List.foldl_cons, ih _ hnd2, getQ_addQ, assocKeys_cons]
    by_cases h1 : k = x
    · subst h1
      have hxr : k ∉ assocKeys r := hknr
      simp [hxr, getQ]
    · have hx : ¬ x = k := fun h => h1 h.symm
      by_cases h2 : x ∈ assocKeys r
      · simp [h1, h2, hx, getQ]
      · simp [h1, h2, hx, List.mem_cons]

theorem mem_keys_foldl_addQ (dm : List (String × ℚ))
    (acc : List (String × ℚ)) (x : String) :
    x ∈ assocKeys (dm.foldl (fun m p => addQ m p.1 p.2) acc)
      ↔ x ∈ assocKeys acc ∨ x ∈ assocKeys dm := by
  induction dm generalizing acc with
  | nil => simp [assocKeys_nil]
  | cons p r ih =>
    rw [List.foldl_cons, ih, mem_keys_addQ, assocKeys_cons, List.mem_cons]
    tauto

theorem nodup_keys_foldl_addQ (dm : List (String × ℚ))
    (acc : List (String × ℚ)) (h : (assocKeys acc).Nodup) :
    (assocKeys (dm.foldl (fun m p => addQ m p.1 p.2) acc)).Nodup := by
  induction dm generalizing acc with
  | nil => exact h
  | cons p r ih =>
    rw [List.foldl_cons]
    exact ih _ (nodup_keys_addQ _ _ _ h)

theorem getQ_wordScores_aux (tfdocs : List (List (String × ℚ)))
    (acc : List (String × ℚ)) (x : String)
    (hnd : ∀ dm ∈ tfdocs, (assocKeys dm).Nodup) :
    getQ (tfdocs.foldl
        (fun acc doc => doc.foldl (fun m p => addQ m p.1 p.2) acc) acc) x
      = getQ acc x
        + (tfdocs.map
            (fun dm => if x ∈ assocKeys dm then getQ dm x else 0)).sum := by
  induction tfdocs generalizing acc with
  | nil => simp
  | cons dm r ih =>
    have hnd1 : (assocKeys dm).Nodup := hnd dm (by simp)
    have hnd2 : ∀ d ∈ r, (assocKeys d).Nodup := fun d hd => hnd d (by simp [hd])
    rw [List.foldl_cons, ih _ hnd2, getQ_foldl_addQ dm acc x hnd1,
      List.map_cons, List.sum_cons]
    ring

theorem mem_keys_wordScores_aux (tfdocs : List (List (String × ℚ)))
    (acc : List (String × ℚ)) (x : String) :
    x ∈ assocKeys (tfdocs.foldl
        (fun acc doc => doc.foldl (fun m p => addQ m p.1 p.2) acc) acc)
      ↔ x ∈ assocKeys acc ∨ ∃ dm ∈ tfdocs, x ∈ assocKeys dm := by
  induction tfdocs generalizing acc with
  | nil => simp
  | cons dm r ih =>
    rw [List.foldl_cons, ih, mem_keys_foldl_addQ]
    simp only [List.mem_cons]
    constructor
    · rintro ((h | h) | ⟨d, hd, hx⟩)
      · exact Or.inl h
      · exact Or.inr ⟨dm, Or.inl rfl, h⟩
      · exact Or.inr ⟨d, Or.inr hd, hx⟩
    · rintro (h | ⟨d, hd | hd, hx⟩)
      · exact Or.inl (Or.inl h)
      · subst hd
        exact Or.inl (Or.inr hx)
      · exact Or.inr ⟨d, hd, hx⟩

theorem nodup_keys_wordScores_aux (tfdocs : List (List (String × ℚ)))
    (acc : List (String × ℚ)) (h : (assocKeys acc).Nodup) :
    (assocKeys (tfdocs.foldl
        (fun acc doc => doc.foldl (fun m p => addQ m p.1 p.2) acc) acc)).Nodup := by
  induction tfdocs generalizing acc with
  | nil => exact h
  | cons dm r ih =>
    rw [List.foldl_cons]
    exact ih _ (nodup_keys_foldl_addQ _ _ h)

theorem calculateTFIDF_pipeline (log : ℚ → ℚ) (documents : List String) :
    calculateTFIDF (calculateTF documents) (calculateIDF log documents)
      = documents.map (fun d => (calculateTFdoc d).map
          (fun p => (p.1, p.2 * getQ (calculateIDF log documents) p.1))) := by
  unfold calculateTFIDF calculateTF
  rw [List.map_map]
  rfl

theorem getQ_wordScores_pipeline (log : ℚ → ℚ) (documents : List String)
    (w : String) (hw : w ∈ specTerms documents) :
    getQ (wordScores
        (calculateTFIDF (calculateTF documents) (calculateIDF log documents))) w
      = specScore log documents w := by
  unfold wordScores
  rw [calculateTFIDF_pipeline]
  rw [getQ_wordScores_aux _ _ _ (by
    intro dm hdm
    obtain ⟨d, _, rfl⟩ := List.mem_map.mp hdm
    rw [assocKeys_mapVal (calculateTFdoc d)
      (fun k q => q * getQ (calculateIDF log documents) k)]
    exact nodup_keys_calculateTFdoc d)]
  rw [getQ_nil, List.map_map]
  have hcongr : ∀ d ∈ documents,
      ((fun dm => if w ∈ assocKeys dm then getQ dm w else 0) ∘
        (fun d => (calculateTFdoc d).map
          (fun p => (p.1, p.2 * getQ (calculateIDF log documents) p.1)))) d
      = specTermFreq d w * specIDF log documents w := by
    intro d _
    show (if w ∈ assocKeys ((calculateTFdoc d).map
        (fun p => (p.1, p.2 * getQ (calculateIDF log documents) p.1)))
      then getQ ((calculateTFdoc d).map
        (fun p => (p.1, p.2 * getQ (calculateIDF log documents) p.1))) w
      else 0) = _
    rw [show assocKeys ((calculateTFdoc d).map
        (fun p => (p.1, p.2 * getQ (calculateIDF log documents) p.1)))
      = assocKeys (calculateTFdoc d) from
        assocKeys_mapVal (calculateTFdoc d)
          (fun k q => q * getQ (calculateIDF log documents) k)]
    by_cases h : w ∈ tokenize d
    · rw [if_pos ((mem_keys_calculateTFdoc d w).mpr h), getQ_tfidfDoc,
        if_pos h, getQ_calculateIDF log documents w hw]
    · rw [if_neg (fun hc => h ((mem_keys_calculateTFdoc d w).mp hc))]
      have hz : specTermFreq d w = 0 := by
        unfold specTermFreq
        rw [List.count_eq_zero_of_not_mem h]
        simp
      rw [hz, zero_mul]
  rw [List.map_congr_left hcongr, zero_add]
  rfl

theorem mem_keys_wordScores_pipeline (log : ℚ → ℚ) (documents : List String)
    (w : String) :
    w ∈ assocKeys (wordScores
        (calculateTFIDF (calculateTF documents) (calculateIDF log documents)))
      ↔ w ∈ specTerms documents := by
  unfold wordScores
  rw [calculateTFIDF_pipeline, mem_keys_wordScores_aux]
  simp only [assocKeys_nil, List.not_mem_nil, false_or, List.mem_map]
  constructor
  · rintro ⟨dm, ⟨d, hd, rfl⟩, hk⟩
    rw [assocKeys_mapVal (calculateTFdoc d)
        (fun k q => q * getQ (calculateIDF log documents) k),
      mem_keys_calculateTFdoc] at hk
    unfold specTerms
    rw [List.mem_dedup, List.mem_flatMap]
    exact ⟨d, hd, hk⟩
  · intro hw
    unfold specTerms at hw
    rw [List.mem_dedup, List.mem_flatMap] at hw
    obtain ⟨d, hd, hk⟩ := hw
    refine ⟨_, ⟨d, hd, rfl⟩, ?_⟩
    rw [assocKeys_mapVal (calculateTFdoc d)
        (fun k q => q * getQ (calculateIDF log documents) k),
      mem_keys_calculateTFdoc]
    exact hk

theorem nodup_keys_wordScores_pipeline (log : ℚ → ℚ)
    (documents : List String) :
    (assocKeys (wordScores
      (calculateTFIDF (calculateTF documents)
        (calculateIDF log documents)))).Nodup := by
  unfold wordScores
  exact nodup_keys_wordScores_aux _ _ (by simp [assocKeys_nil])

theorem mem_wordScores_pipeline (log : ℚ → ℚ) (documents : List String)
    (w : String) (v : ℚ) :
    (w, v) ∈ wordScores
        (calculateTFIDF (calculateTF documents) (calculateIDF log documents))
      ↔ w ∈ specTerms documents ∧ v = specScore log documents w := by
  constructor
  · intro h
    have hk : w ∈ assocKeys (wordScores _) := List.mem_map.mpr ⟨(w, v), h, rfl⟩
    have hterms : w ∈ specTerms documents :=
      (mem_keys_wordScores_pipeline log documents w).mp hk
    have hv : getQ (wordScores _) w = v :=
      getQ_of_mem _ _ _ (nodup_keys_wordScores_pipeline log documents) h
    exact ⟨hterms, by
      rw [← hv, getQ_wordScores_pipeline log documents w hterms]⟩
  · rintro ⟨hw, rfl⟩
    have hk : w ∈ assocKeys (wordScores
        (calculateTFIDF (calculateTF documents)
          (calculateIDF log documents))) :=
      (mem_keys_wordScores_pipeline log documents w).mpr hw
    have := mem_of_key_mem _ _ hk
    rwa [getQ_wordScores_pipeline log documents w hw] at this

theorem wordScores_pipeline_perm (log : ℚ → ℚ) (documents : List String) :
    List.Perm
      (wordScores
        (calculateTFIDF (calculateTF documents) (calculateIDF log documents)))
      ((specTerms documents).map
        (fun w => (w, specScore log documents w))) := by
  apply (List.perm_ext_iff_of_nodup ?_ ?_).mpr
  · intro p
    obtain ⟨w, v⟩ := p
    rw [mem_wordScores_pipeline, List.mem_map]
    constructor
    · rintro ⟨hw, rfl⟩
      exact ⟨w, hw, rfl⟩
    · rintro ⟨w', hw', hp⟩
      obtain ⟨h1, h2⟩ := Prod.ext_iff.mp hp
      simp only at h1 h2
      subst h1
      exact ⟨hw', h2.symm⟩
  · exact List.Nodup.of_map Prod.fst
      (nodup_keys_wordScores_pipeline log documents)
  · exact List.Nodup.map
      (fun a b h => congrArg Prod.fst h)
      (List.nodup_dedup _)

/-- **C3.**  For every non-empty message list, TF-IDF keyword
extraction behaves exactly as claimed: per-message term frequency is
occurrences over the message's total `length > 2` tokens, inverse
document frequency is `log(totalMessages / messagesContainingTerm)`
(the real `ln` abstracted as the parameter `log`, exactly the argument
the code feeds to `Math.log`), a term's aggregate score is the
per-message product summed across all messages, and the returned list
is the top `maxTopicsPerConversation` terms by aggregate score: sorted
non-increasingly, of length `min(maxTopics, #distinctTerms)` (all
terms when fewer exist than requested), duplicate-free, carrying
exactly the aggregate scores, and every omitted term scores no higher
than every returned one. -/
theorem extractKeywordsTFIDF_spec (log : ℚ → ℚ)
    (contents documents : List String) (k : Nat)
    (hdocs : documents = contents.map strToLower)
    (hne : contents ≠ []) :
    List.Sorted scoreDescBefore (extractKeywordsTFIDF log contents k) ∧
    (extractKeywordsTFIDF log contents k).length
      = min k (specTerms documents).length ∧
    (∀ p ∈ extractKeywordsTFIDF log contents k,
      p.1 ∈ specTerms documents ∧ p.2 = specScore log documents p.1) ∧
    ((extractKeywordsTFIDF log contents k).map Prod.fst).Nodup ∧
    (∀ w ∈ specTerms documents,
      w ∉ (extractKeywordsTFIDF log contents k).map Prod.fst →
      ∀ p ∈ extractKeywordsTFIDF log contents k,
        specScore log documents w ≤ p.2) := by
  subst hdocs
  have hres : extractKeywordsTFIDF log contents k
      = (List.insertionSort scoreDescBefore
          (wordScores (calculateTFIDF (calculateTF (contents.map strToLower))
            (calculateIDF log (contents.map strToLower))))).take k := rfl
  set documents := contents.map strToLower with hdocs
  set ws := wordScores (calculateTFIDF (calculateTF documents)
    (calculateIDF log documents)) with hws
  set sorted := List.insertionSort scoreDescBefore ws with hsorted
  have hperm_sort : List.Perm sorted ws := List.perm_insertionSort _ _
  have hperm_spec : List.Perm ws ((specTerms documents).map
      (fun w => (w, specScore log documents w))) :=
    wordScores_pipeline_perm log documents
  have hsorted_sorted : List.Sorted scoreDescBefore sorted :=
    List.sorted_insertionSort _ _
  refine ⟨?_, ?_, ?_, ?_, ?_⟩
  · rw [hres]
    exact List.Pairwise.sublist (List.take_sublist k sorted) hsorted_sorted
  · rw [hres, List.length_take, hperm_sort.length_eq, hperm_spec.length_eq,
      List.length_map]
  · intro p hp
    rw [hres] at hp
    have hp2 : p ∈ ws := hperm_sort.mem_iff.mp (List.mem_of_mem_take hp)
    obtain ⟨w, v⟩ := p
    exact (mem_wordScores_pipeline log documents w v).mp hp2
  · rw [hres, List.map_take]
    apply List.Nodup.sublist (List.take_sublist k (sorted.map Prod.fst))
    rw [(hperm_sort.map Prod.fst).nodup_iff]
    exact nodup_keys_wordScores_pipeline log documents
  · intro w hw hnotin p hp
    rw [hres] at hnotin hp
    have hmemws : (w, specScore log documents w) ∈ ws :=
      (mem_wordScores_pipeline log documents w _).mpr ⟨hw, rfl⟩
    have hmem_sorted : (w, specScore log documents w) ∈ sorted :=
      hperm_sort.mem_iff.mpr hmemws
    have hnot_take : (w, specScore log documents w) ∉ sorted.take k :=
      fun hc => hnotin (List.mem_map.mpr ⟨_, hc, rfl⟩)
    have hdrop : (w, specScore log documents w) ∈ sorted.drop k := by
      rcases (List.mem_append.mp
        (by rw [List.take_append_drop]; exact hmem_sorted :
          (w, specScore log documents w) ∈ sorted.take k ++ sorted.drop k))
        with h | h
      · exact absurd h hnot_take
      · exact h
    have hpairwise : List.Pairwise scoreDescBefore
        (sorted.take k ++ sorted.drop k) := by
      rw [List.take_append_drop]
      exact hsorted_sorted
    have := (List.pairwise_append.mp hpairwise).2.2 p hp _ hdrop
    exact this

/-- Witness for `extractKeywordsTFIDF_spec`: the one-message corpus
`"aaa bbb aaa"` with `log` the constant-one function and `k = 1`. -/
theorem extractKeywordsTFIDF_spec_witness :
    (["aaa bbb aaa"] : List String) ≠ [] ∧
    (List.Sorted scoreDescBefore
        (extractKeywordsTFIDF (fun _ => 1) ["aaa bbb aaa"] 1) ∧
     (extractKeywordsTFIDF (fun _ => 1) ["aaa bbb aaa"] 1).length
       = min 1 (specTerms (["aaa bbb aaa"].map strToLower)).length ∧
     (∀ p ∈ extractKeywordsTFIDF (fun _ => 1) ["aaa bbb aaa"] 1,
       p.1 ∈ specTerms (["aaa bbb aaa"].map strToLower) ∧
       p.2 = specScore (fun _ => 1) (["aaa bbb aaa"].map strToLower) p.1) ∧
     ((extractKeywordsTFIDF (fun _ => 1) ["aaa bbb aaa"] 1).map
        Prod.fst).Nodup ∧
     (∀ w ∈ specTerms (["aaa bbb aaa"].map strToLower),
       w ∉ (extractKeywordsTFIDF (fun _ => 1) ["aaa bbb aaa"] 1).map
         Prod.fst →
       ∀ p ∈ extractKeywordsTFIDF (fun _ => 1) ["aaa bbb aaa"] 1,
         specScore (fun _ => 1) (["aaa bbb aaa"].map strToLower) w ≤ p.2)) :=
  ⟨by decide,
   extractKeywordsTFIDF_spec (fun _ => 1) ["aaa bbb aaa"]
     (["aaa bbb aaa"].map strToLower) 1 rfl (by decide)⟩
